import Mathlib

/-!
Smallsh: a shallow embedding of `smallsh.c`.

The development follows the source file function by function.

* C strings are lists of characters (`CStr`); the terminating NUL is implicit,
  so a string of length `n` occupies `n + 1` bytes.
* `int`, `pid_t` and file descriptors are `Int`; `size_t` quantities are `Nat`
  (sizes of objects in memory, far below the wrap-around point).
* System calls are answered by an `Oracle` that may depend on the whole history
  of earlier calls; every call is appended to a `Trace`.
* Loops without a structural bound take a fuel argument and report `Res.timeout`
  when it is used up; undefined behaviour (writing past a buffer, reading
  through a null pointer) is reported as `Res.fault`.
-/

namespace Smallsh

/-- A C string without its terminating NUL byte. -/
abbrev CStr := List Char

/-- Outcome of a computation of the embedding. -/
inductive Res (α : Type) where
  | ok (a : α)
  | fault
  | timeout
  deriving DecidableEq, Repr

/-! ## libc string primitives -/

/-- Call `strstr(hay, needle)`: offset of the first occurrence of `needle` in `hay`,
`none` for a null result. -/
def strstr : CStr → CStr → Option Nat
  | [], needle => if needle = [] then some 0 else none
  | c :: t, needle =>
    if needle.isPrefixOf (c :: t) then some 0 else (strstr t needle).map (· + 1)

/-- Call `strcpy(buf + off, src)` into a buffer of `cap` bytes currently holding the string `buf`.
The copy writes `src.length + 1` bytes starting at offset `off`. -/
def strcpyAt (cap : Nat) (buf : CStr) (off : Nat) (src : CStr) : Res CStr :=
  if off + src.length + 1 ≤ cap then
    if off ≤ buf.length then Res.ok (buf.take off ++ src) else Res.ok buf
  else Res.fault

/-- The two-character PID marker. -/
def szMarker : CStr := ['$', '$']

/-! ## `fnResizeString` (smallsh.c, lines 306-316) -/

/-- Function `fnResizeString(&str, u32Start, u32Goal)`: while the goal exceeds the capacity, allocate a
zeroed buffer of twice the capacity, copy the string into it and release the old one.
Returns the string together with the final capacity. -/
def fnResizeString : Nat → CStr → Nat → Nat → Res (CStr × Nat)
  | fuel, szStr, u32Start, u32Goal =>
    if u32Goal > u32Start then
      match fuel with
      | 0 => Res.timeout
      | fuel + 1 =>
        match strcpyAt (u32Start * 2) [] 0 szStr with
        | Res.ok szTemp => fnResizeString fuel szTemp (u32Start * 2) u32Goal
        | Res.fault => Res.fault
        | Res.timeout => Res.timeout
    else Res.ok (szStr, u32Start)

/-! ## PID expansion of one token (smallsh.c, lines 122-134) -/

/-- The inner `for` loop of the tokenizer: as long as `strstr` finds the marker in the argument
string, save the text after it, grow the buffer, then overwrite the marker with the pid string and
copy the saved text back behind it. `s` is the argument string, `u32Acap` its capacity and
`u32Asz` its size including the NUL. The loop of `fnResizeString` is given `u32Asz` iterations,
more than doubling a non-zero capacity up to `u32Asz` can take. -/
def expandLoop (szPid : CStr) : Nat → CStr → Nat → Nat → Res CStr
  | fuel, s, u32Acap, u32Asz =>
    match strstr s szMarker with
    | none => Res.ok s
    | some off =>
      match fuel with
      | 0 => Res.timeout
      | fuel + 1 =>
        let szAftExp := s.drop (off + 2)
        let iPidLen := szPid.length
        let u32Asz := u32Asz + iPidLen - 2
        match fnResizeString u32Asz s u32Acap u32Asz with
        | Res.fault => Res.fault
        | Res.timeout => Res.timeout
        | Res.ok (s, u32Acap) =>
          match strstr s szMarker with
          | none => Res.fault
          | some off =>
            match strcpyAt u32Acap s off szPid with
            | Res.fault => Res.fault
            | Res.timeout => Res.timeout
            | Res.ok s =>
              match strcpyAt u32Acap s (off + iPidLen) szAftExp with
              | Res.fault => Res.fault
              | Res.timeout => Res.timeout
              | Res.ok s => expandLoop szPid fuel s u32Acap u32Asz

/-- Body of the tokenizer loop for one token: duplicate it (`strdup`) with capacity and size
`strlen + 1`, then run the expansion loop. -/
def expandToken (szPid : CStr) (fuel : Nat) (szTok : CStr) : Res CStr :=
  expandLoop szPid fuel szTok (szTok.length + 1) (szTok.length + 1)

/-! ### Reference semantics of PID expansion (from the specification) -/

/-- Specification: scanning left to right, every non-overlapping occurrence of the marker is
replaced by `p`. -/
def substMarker (p : CStr) : CStr → CStr
  | [] => []
  | [c] => [c]
  | c :: d :: t =>
    if c = '$' ∧ d = '$' then p ++ substMarker p t else c :: substMarker p (d :: t)

/-- Specification: number of non-overlapping occurrences of the marker, scanning left to right. -/
def countMarker : CStr → Nat
  | [] => 0
  | [_] => 0
  | c :: d :: t =>
    if c = '$' ∧ d = '$' then countMarker t + 1 else countMarker (d :: t)

/-- A decimal pid string: non-empty, digits only. -/
def IsPidString (p : CStr) : Prop := p ≠ [] ∧ ∀ c ∈ p, c.isDigit = true

instance (p : CStr) : Decidable (IsPidString p) := by
  unfold IsPidString; infer_instance

/-! ## System calls and their history -/

/-- The flag combinations with which the program calls `open`. -/
inductive OpenFlags where
  | O_RDONLY
  | O_WRONLY
  | O_CREAT_TRUNC_WRONLY
  deriving DecidableEq, Repr

/-- One observable action of the process: a system call with its result, or a line handed to
stdio. -/
inductive SysEvent where
  | sysOpen (path : CStr) (flags : OpenFlags) (ret : Int)
  | sysClose (fd : Int)
  | sysWaitpid (pid : Int) (nohang : Bool) (ret : Int) (status : Int)
  | sysFork (ret : Int)
  | sysWrite (fd : Int) (bytes : List Char)
  | printf (fmt : String) (args : List Int)
  | puts (s : String)
  | perror (s : String)
  | sysGetcwd (ret : Option CStr)
  | sysChdir (path : Option CStr) (ret : Int)
  | sysSetenv (name : String) (value : Option CStr)
  | printfStr (fmt : String) (args : List (Option CStr))
  deriving DecidableEq, Repr

/-- History of the actions of the process, oldest first. -/
abbrev Trace := List SysEvent

/-- The operating system as seen by the process: the value each call returns, as a function of
everything that happened before it. -/
structure Oracle where
  openRet : Trace → CStr → OpenFlags → Int
  waitRet : Trace → Int → Bool → Int × Int
  forkRet : Trace → Int

def STDIN_FILENO : Int := 0

def STDOUT_FILENO : Int := 1

/-- The path of the null device. -/
def szDevNull : CStr := "/dev/null".toList

/-- Call `open(path, flags)`: ask the oracle and record the call. -/
def sysOpen (os : Oracle) (tr : Trace) (path : CStr) (flags : OpenFlags) : Int × Trace :=
  (os.openRet tr path flags, tr ++ [SysEvent.sysOpen path flags (os.openRet tr path flags)])

/-! ## `fnPnPrependHomeMaybe` (smallsh.c, lines 318-323) -/

/-- Function `fnPnPrependHomeMaybe(szPathname)`: when the first character is `~`, a zeroed buffer of
`strlen(szHome) + strlen(szPathname)` bytes receives `szHome` followed by the pathname without its
first character; otherwise the pathname is duplicated. `szHome` is the result of
`getenv("HOME")`, `none` for a null pointer. -/
def fnPnPrependHomeMaybe (szHome : Option CStr) (szPathname : CStr) : Res CStr :=
  if szPathname.head? = some '~' then
    match szHome with
    | none => Res.fault
    | some home =>
      let cap := home.length + szPathname.length
      match strcpyAt cap [] 0 home with
      | Res.ok buf => strcpyAt cap buf buf.length szPathname.tail
      | Res.fault => Res.fault
      | Res.timeout => Res.timeout
  else Res.ok szPathname

/-! ## `fnStCommandCreate` (smallsh.c, lines 325-427) -/

/-- The `stCommand` struct: argument vector (the non-null prefix of `arrsz_args`), the two
descriptors and the foreground flag. -/
structure stCommand where
  arrsz_args : List CStr
  fdIn : Int
  fdOut : Int
  bForeground : Int
  deriving DecidableEq, Repr

/-- The variables of `fnStCommandCreate` while its loop runs. -/
structure Compiler where
  comC : stCommand
  sPhase : Nat
  idMyErrno : Int
  hist : Trace
  deriving DecidableEq, Repr

def szLt : CStr := ['<']

def szGt : CStr := ['>']

def szAmp : CStr := ['&']

/-- One execution of the `switch` in the loop body, for the token `tok`; `more` tells whether the
slot after it, `*(pS + 1)`, is non-null. -/
def compileStep (os : Oracle) (szHome : Option CStr) (bForegroundOnly : Int)
    (tok : CStr) (more : Bool) (st : Compiler) : Res Compiler :=
  match st.sPhase with
  | 0 =>
    if tok = szLt then
      if more then Res.ok { st with sPhase := 1 } else Res.ok { st with idMyErrno := 1 }
    else if tok = szGt then
      if more then Res.ok { st with sPhase := 3 } else Res.ok { st with idMyErrno := 2 }
    else if tok = szAmp ∧ more = false then
      if bForegroundOnly = 0 then
        let r1 := sysOpen os st.hist szDevNull OpenFlags.O_RDONLY
        let r2 := sysOpen os r1.2 szDevNull OpenFlags.O_WRONLY
        Res.ok { st with
          comC := { st.comC with bForeground := 0, fdIn := r1.1, fdOut := r2.1 },
          hist := r2.2 }
      else Res.ok st
    else
      Res.ok { st with comC := { st.comC with arrsz_args := st.comC.arrsz_args ++ [tok] } }
  | 1 =>
    match fnPnPrependHomeMaybe szHome tok with
    | Res.fault => Res.fault
    | Res.timeout => Res.timeout
    | Res.ok szPathname =>
      let r := sysOpen os st.hist szPathname OpenFlags.O_RDONLY
      if r.1 < 0 then
        Res.ok { st with comC := { st.comC with fdIn := r.1 }, hist := r.2, idMyErrno := 4 }
      else
        Res.ok { st with comC := { st.comC with fdIn := r.1 }, hist := r.2, sPhase := 2 }
  | 2 =>
    if tok = szGt then
      if more then Res.ok { st with sPhase := 3 } else Res.ok { st with idMyErrno := 2 }
    else if tok = szAmp ∧ more = false then
      if bForegroundOnly = 0 then
        let r1 :=
          if st.comC.fdIn = STDIN_FILENO then sysOpen os st.hist szDevNull OpenFlags.O_RDONLY
          else (st.comC.fdIn, st.hist)
        let r2 := sysOpen os r1.2 szDevNull OpenFlags.O_WRONLY
        Res.ok { st with
          comC := { st.comC with bForeground := 0, fdIn := r1.1, fdOut := r2.1 },
          hist := r2.2 }
      else Res.ok st
    else Res.ok { st with idMyErrno := 3 }
  | 3 =>
    match fnPnPrependHomeMaybe szHome tok with
    | Res.fault => Res.fault
    | Res.timeout => Res.timeout
    | Res.ok szPathname =>
      let r := sysOpen os st.hist szPathname OpenFlags.O_CREAT_TRUNC_WRONLY
      if r.1 < 0 then
        Res.ok { st with comC := { st.comC with fdOut := r.1 }, hist := r.2, idMyErrno := 5 }
      else
        Res.ok { st with comC := { st.comC with fdOut := r.1 }, hist := r.2, sPhase := 4 }
  | 4 =>
    if tok ≠ szAmp ∨ more = true then Res.ok { st with idMyErrno := 3 }
    else if bForegroundOnly = 0 then
      let r1 :=
        if st.comC.fdIn = STDIN_FILENO then sysOpen os st.hist szDevNull OpenFlags.O_RDONLY
        else (st.comC.fdIn, st.hist)
      let r2 :=
        if st.comC.fdOut = STDOUT_FILENO then sysOpen os r1.2 szDevNull OpenFlags.O_WRONLY
        else (st.comC.fdOut, r1.2)
      Res.ok { st with
        comC := { st.comC with bForeground := 0, fdIn := r1.1, fdOut := r2.1 },
        hist := r2.2 }
    else Res.ok st
  | _ => Res.ok st

/-- The `for` loop of `fnStCommandCreate`: `args` are the tokens from `pS` up to the first null
slot and `idx` is the index of `pS` in the array; the loop runs while `*pS != NULL`,
`pS < arrszArgs + 511` and `idMyErrno == 0`. -/
def compileLoop (os : Oracle) (szHome : Option CStr) (bForegroundOnly : Int) :
    List CStr → Nat → Compiler → Res Compiler
  | [], _, st => Res.ok st
  | tok :: rest, idx, st =>
    if idx < 511 ∧ st.idMyErrno = 0 then
      match compileStep os szHome bForegroundOnly tok (!rest.isEmpty) st with
      | Res.ok st => compileLoop os szHome bForegroundOnly rest (idx + 1) st
      | Res.fault => Res.fault
      | Res.timeout => Res.timeout
    else Res.ok st

/-- What `fnStCommandCreate` leaves behind: its return value, the struct it filled and the
history of the process. -/
structure Compiled where
  idMyErrno : Int
  comC : stCommand
  hist : Trace
  deriving DecidableEq, Repr

/-- Function `fnStCommandCreate(&comC, arrszArgs, bForegroundOnly)`: clear the struct (no arguments,
standard descriptors, foreground), run the loop from the first slot in phase 0 without error, and
return `idMyErrno`. `arrszArgs` is given by its tokens up to the first null slot. -/
def fnStCommandCreate (os : Oracle) (szHome : Option CStr) (tr : Trace)
    (arrszArgs : List CStr) (bForegroundOnly : Int) : Res Compiled :=
  match compileLoop os szHome bForegroundOnly arrszArgs 0
      { comC := { arrsz_args := [], fdIn := STDIN_FILENO, fdOut := STDOUT_FILENO,
                  bForeground := 1 },
        sPhase := 0, idMyErrno := 0, hist := tr } with
  | Res.ok st => Res.ok { idMyErrno := st.idMyErrno, comC := st.comC, hist := st.hist }
  | Res.fault => Res.fault
  | Res.timeout => Res.timeout

/-- An argument that phase 0 copies into the argument vector wherever it stands: a token other
than `<`, `>` and `&`. -/
def IsLiteral (tok : CStr) : Prop := tok ≠ szLt ∧ tok ≠ szGt ∧ tok ≠ szAmp

instance (tok : CStr) : Decidable (IsLiteral tok) := by
  unfold IsLiteral; infer_instance

/-- An oracle for examples: every `open` returns the descriptor `3` plus the number of earlier
calls, except that paths starting with `!` cannot be opened; no child ever changes state. -/
def demoOracle : Oracle where
  openRet := fun tr path _ => if path.head? = some '!' then -1 else 3 + (tr.length : Int)
  waitRet := fun _ _ _ => (0, 0)
  forkRet := fun tr => 100 + (tr.length : Int)

/-! ## The process list (smallsh.c, lines 18-23 and 443-481) -/

/-- A node of the `stProcessList` linked list; the list itself is the `List` of its nodes in
`prNext` order, and a pointer to a node is the position of the node in that list. -/
structure stProcessList where
  pidSelf : Int
  fdIn : Int
  fdOut : Int
  deriving DecidableEq, Repr

/-- Function `fnStProcessListPush(&pl, pidNew, fdIn, fdOut)`: walk to the last node and hang a new node
behind it, or make the new node the head of an empty list. -/
def fnStProcessListPush : List stProcessList → Int → Int → Int → List stProcessList
  | [], pidNew, fdIn, fdOut => [{ pidSelf := pidNew, fdIn := fdIn, fdOut := fdOut }]
  | n :: rest, pidNew, fdIn, fdOut => n :: fnStProcessListPush rest pidNew fdIn fdOut

/-- Function `fnStProcessListPopMatching(&pl, pidRm)`: search the first node whose pid is `pidRm` and
unlink it. Returns the node found together with its position in the list before the call
(`none` for a null pointer), and the list after the call. -/
def fnStProcessListPopMatching :
    List stProcessList → Int → Option (Nat × stProcessList) × List stProcessList
  | [], _ => (none, [])
  | n :: rest, pidRm =>
    if n.pidSelf = pidRm then (some (0, n), rest)
    else
      ((fnStProcessListPopMatching rest pidRm).1.map (fun r => (r.1 + 1, r.2)),
        n :: (fnStProcessListPopMatching rest pidRm).2)

/-! ## Wait statuses (`<sys/wait.h>`, Linux encoding) -/

/-- Macro `WTERMSIG(status)`: the low seven bits. -/
def WTERMSIG (status : Int) : Int := status % 128

/-- Macro `WIFEXITED(status)`: the low seven bits are zero. -/
def WIFEXITED (status : Int) : Bool := WTERMSIG status = 0

/-- Macro `WEXITSTATUS(status)`: bits 8 to 15. -/
def WEXITSTATUS (status : Int) : Int := (status / 256) % 256

/-- Macro `WIFSIGNALED(status)`: the low seven bits are neither zero nor all ones. -/
def WIFSIGNALED (status : Int) : Bool := WTERMSIG status ≠ 0 ∧ WTERMSIG status ≠ 127

/-! ## The poll of the background processes (smallsh.c, lines 88-106 and 276-294) -/

/-- The statements of the poll loop that follow a successful `fnStProcessListPopMatching`: close
the descriptors of the node unless they are the standard ones, then print the report. -/
def reapReport (prDone : stProcessList) (pidBc sBackground : Int) : Trace :=
  (if prDone.fdIn ≠ STDIN_FILENO then [SysEvent.sysClose prDone.fdIn] else []) ++
  (if prDone.fdOut ≠ STDOUT_FILENO then [SysEvent.sysClose prDone.fdOut] else []) ++
  [SysEvent.printf "DONE with background process with pid [%d]: " [pidBc]] ++
  (if WIFEXITED sBackground then
    [SysEvent.printf "Exited with status %d\n" [WEXITSTATUS sBackground]]
   else [SysEvent.printf "Terminated by signal %d\n" [WTERMSIG sBackground]])

/-- The poll loop. `pl` is `plBackgroundProcesses` and `plI` the position of the node the
iterator points to (null when it is past the end). One iteration calls
`waitpid(plI->pidSelf, &sBackground, WNOHANG)`; on a non-zero result the node with that pid is
popped (a null result is dereferenced: a fault), its descriptors are closed, the iterator moves
to the successor when the popped node is the one it points to, and the report is printed; on a
zero result the iterator moves to the successor. In the list after the pop the successor of the
popped node stands at the position the popped node had, and a node behind the popped one stands
one position earlier than before. -/
def pollLoop (os : Oracle) :
    Nat → List stProcessList → Nat → Trace → Res (List stProcessList × Trace)
  | fuel, pl, plI, tr =>
    match pl[plI]? with
    | none => Res.ok (pl, tr)
    | some node =>
      match fuel with
      | 0 => Res.timeout
      | fuel + 1 =>
        let pidBc := (os.waitRet tr node.pidSelf true).1
        let sBackground := (os.waitRet tr node.pidSelf true).2
        let tr := tr ++ [SysEvent.sysWaitpid node.pidSelf true pidBc sBackground]
        if pidBc ≠ 0 then
          match fnStProcessListPopMatching pl pidBc with
          | (none, _) => Res.fault
          | (some (j, prDone), pl) =>
            pollLoop os fuel pl (if j = plI then plI else if j < plI then plI - 1 else plI)
              (tr ++ reapReport prDone pidBc sBackground)
        else pollLoop os fuel pl (plI + 1) tr

/-- One full poll pass: the loop started at the head of the list. Every iteration removes a node
or advances the iterator, so twice the length of the list bounds the number of iterations. -/
def pollJobs (os : Oracle) (pl : List stProcessList) (tr : Trace) :
    Res (List stProcessList × Trace) :=
  pollLoop os (2 * pl.length) pl 0 tr

/-- What one poll pass does for the node `n` when `waitpid` answers `ans` for it: the call
itself and, for a non-zero answer, the closes and the report. -/
def pollEvents (ans : Int × Int) (n : stProcessList) : Trace :=
  SysEvent.sysWaitpid n.pidSelf true ans.1 ans.2 ::
    (if ans.1 ≠ 0 then reapReport n ans.1 ans.2 else [])

/-- The lines a history hands to stdio. -/
def reports (tr : Trace) : Trace :=
  tr.filter (fun e => match e with
    | SysEvent.printf _ _ => true
    | SysEvent.puts _ => true
    | SysEvent.printfStr _ _ => true
    | _ => false)

/-- A `waitpid` answer table for examples: process 7 has exited with code 2, every other process
is still running. -/
def demoAns (pid : Int) : Int × Int := if pid = 7 then (7, 512) else (0, 0)

/-- The example oracle with `waitpid` answering by `demoAns`. -/
def demoReapOracle : Oracle :=
  { demoOracle with waitRet := fun _ pid _ => demoAns pid }

/-! ## The mode flag and `hSIGTSTP` (smallsh.c, lines 53 and 483-492) -/

/-- The string literal written when foreground-only mode is left. -/
def szExitBanner : String := "\nExiting foreground-only mode\n: "

/-- The string literal written when foreground-only mode is entered. -/
def szEnterBanner : String := "\nEntering foreground-only mode (& is now ignored)\n: "

/-- Call `write(fd, literal, n)`: the first `n` bytes of the array of a string literal, which holds
the characters of the literal followed by a NUL byte. -/
def writeLiteral (fd : Int) (literal : String) (n : Nat) : SysEvent :=
  SysEvent.sysWrite fd ((literal.toList ++ [Char.ofNat 0]).take n)

/-- Function `hSIGTSTP(iSigno)` acting on the global `bForegroundOnly`: write one of the two literals
according to the current value, then replace the value by its logical negation. -/
def hSIGTSTP (bForegroundOnly : Int) (tr : Trace) : Int × Trace :=
  (if bForegroundOnly = 0 then 1 else 0,
   if bForegroundOnly ≠ 0 then tr ++ [writeLiteral STDOUT_FILENO szExitBanner 33]
   else tr ++ [writeLiteral STDOUT_FILENO szEnterBanner 53])

/-! ## Dispatch of an external command (smallsh.c, lines 192-296) -/

/-- The variables of `main` that survive a loop iteration, and the history of the process. -/
structure Shell where
  bLastFgPSigTerm : Int
  sLastFgPStat : Int
  plBackgroundProcesses : List stProcessList
  hist : Trace
  deriving DecidableEq, Repr

/-- How the handling of one line ends for this process: it goes on to the next prompt, it
terminates, or it is the freshly forked child that is about to set up its descriptors and
execute the command. -/
inductive Outcome where
  | next (sh : Shell)
  | exited (status : Int) (hist : Trace)
  | child (comC : stCommand) (hist : Trace)
  deriving DecidableEq, Repr

/-- The `switch (idMyErrno)` of `main`: the message printed for each error kind. -/
def parseErrorMessage (idMyErrno : Int) : Trace :=
  if idMyErrno = 1 then [SysEvent.puts "SMALLSH: Filename expected after < token"]
  else if idMyErrno = 2 then [SysEvent.puts "SMALLSH: Filename expected after > token"]
  else if idMyErrno = 3 then [SysEvent.puts "SMALLSH: Unexpected token"]
  else if idMyErrno = 4 then [SysEvent.puts "SMALLSH: Input file could not be opened"]
  else if idMyErrno = 5 then [SysEvent.puts "SMALLSH: Output file could not be opened"]
  else []

/-- The last `else` branch of the command section of `main` (lines 192-272), up to the label
`CLEANUP`: compile the tokens; on a parse error print its message; otherwise fork, and in the
parent either wait for the foreground child, record its status and close the descriptors that are
not the standard ones, or announce the background child and push it on the process list.
`fnStCommandFree` only releases memory. -/
def runCommand (os : Oracle) (szHome : Option CStr) (bForegroundOnly : Int)
    (arrszArgs : List CStr) (sh : Shell) : Res Outcome :=
  match fnStCommandCreate os szHome sh.hist arrszArgs bForegroundOnly with
  | Res.fault => Res.fault
  | Res.timeout => Res.timeout
  | Res.ok c =>
    if c.idMyErrno ≠ 0 then
      Res.ok (Outcome.next { sh with hist := c.hist ++ parseErrorMessage c.idMyErrno })
    else
      let pidC := os.forkRet c.hist
      let tr := c.hist ++ [SysEvent.sysFork pidC]
      if pidC = -1 then
        Res.ok (Outcome.exited 1 (tr ++ [SysEvent.perror "SMALLSH: FATAL ERROR"]))
      else if pidC = 0 then Res.ok (Outcome.child c.comC tr)
      else if c.comC.bForeground ≠ 0 then
        let sCh := (os.waitRet tr pidC false).2
        let tr := tr ++ [SysEvent.sysWaitpid pidC false (os.waitRet tr pidC false).1 sCh]
        let tr :=
          if WIFSIGNALED sCh then tr ++ [SysEvent.printf "TERMINATED with signal %d\n" [WTERMSIG sCh]]
          else tr
        let tr := if c.comC.fdIn ≠ STDIN_FILENO then tr ++ [SysEvent.sysClose c.comC.fdIn] else tr
        let tr :=
          if c.comC.fdOut ≠ STDOUT_FILENO then tr ++ [SysEvent.sysClose c.comC.fdOut] else tr
        Res.ok (Outcome.next { sh with
          bLastFgPSigTerm := if WIFSIGNALED sCh then 1 else 0,
          sLastFgPStat := if WIFSIGNALED sCh then WTERMSIG sCh else WEXITSTATUS sCh,
          hist := tr })
      else
        Res.ok (Outcome.next { sh with
          plBackgroundProcesses :=
            fnStProcessListPush sh.plBackgroundProcesses pidC c.comC.fdIn c.comC.fdOut,
          hist := tr ++ [SysEvent.printf "BACKGROUND pid is [%d]\n" [pidC]] })

/-- The poll of the background processes at the label `CLEANUP` (lines 274-294), applied to the
variables of `main`. -/
def cleanupPoll (os : Oracle) (sh : Shell) : Res Outcome :=
  match pollJobs os sh.plBackgroundProcesses sh.hist with
  | Res.fault => Res.fault
  | Res.timeout => Res.timeout
  | Res.ok r => Res.ok (Outcome.next { sh with plBackgroundProcesses := r.1, hist := r.2 })

/-- One iteration of the main loop for a token array whose first token is neither a redirection
token nor a builtin: `runCommand`, then the poll at `CLEANUP`; `fnFreeArgs` only releases
memory. -/
def externalCommandLine (os : Oracle) (szHome : Option CStr) (bForegroundOnly : Int)
    (arrszArgs : List CStr) (sh : Shell) : Res Outcome :=
  match runCommand os szHome bForegroundOnly arrszArgs sh with
  | Res.ok (Outcome.next sh) => cleanupPoll os sh
  | r => r

/-- The descriptors a history leaves open, given those open before it: a successful `open` adds
its result, a `close` removes its argument. -/
def openDescriptors (before : List Int) (tr : Trace) : List Int :=
  tr.foldl (fun fds e => match e with
    | SysEvent.sysOpen _ _ ret => if 0 ≤ ret then fds ++ [ret] else fds
    | SysEvent.sysClose fd => fds.erase fd
    | _ => fds) before

/-- An oracle for examples on which every `waitpid` fails: it returns -1. -/
def demoWaitErrorOracle : Oracle :=
  { demoOracle with waitRet := fun _ _ _ => (-1, 0) }

/-! ## The tokenizer (smallsh.c, lines 109-136) -/

/-- The delimiter string `szDelim`: space and newline. -/
def szDelim : CStr := [' ', '\n']

/-- The C string held by a byte buffer: the bytes before the first NUL. The buffer `getline`
fills may hold NUL bytes that were part of the input; every string function stops at the first
one. -/
def cString (buf : List Char) : CStr := buf.takeWhile (fun c => c != Char.ofNat 0)

/-- Call `strtok_r(str, delim, &pSave)` on the rest `s` of the line buffer (the buffer itself on
the first call, the saved position afterwards); the function sees the C string at that position,
that is the bytes before the first NUL. It skips the leading delimiters; at the end of the string
the result is null; otherwise the token runs up to the next delimiter, which is overwritten with
NUL, and the saved position is the character behind it (or the end of the string when no
delimiter follows). Returns the token and the rest of the line. -/
def strtok_r (delim : CStr) (s : List Char) : Option (CStr × List Char) :=
  match (cString s).dropWhile (fun c => delim.contains c) with
  | [] => none
  | c :: t =>
    some ((c :: t).takeWhile (fun c => !delim.contains c),
      ((c :: t).dropWhile (fun c => !delim.contains c)).drop 1)

/-- The tokens `szTok` that the `for` loop of the tokenizer sees one after the other, `n` being
the number of array slots still available (`511 - i`): the loop stops at a null token or when
`i` reaches 511. -/
def strtokLoop (delim : CStr) : Nat → CStr → List CStr
  | 0, _ => []
  | n + 1, s =>
    match strtok_r delim s with
    | none => []
    | some (szTok, rest) => szTok :: strtokLoop delim n rest

/-- The `for` loop of the tokenizer with its body: every token is duplicated into the next slot
of `arrszArgs` and PID-expanded there (the expansion loop is given one iteration per character of
the token); the line itself is only touched by `strtok_r`. Returns the non-null slots of
`arrszArgs`. -/
def tokenizeLoop (szPid : CStr) : Nat → CStr → Res (List CStr)
  | 0, _ => Res.ok []
  | n + 1, s =>
    match strtok_r szDelim s with
    | none => Res.ok []
    | some (szTok, rest) =>
      match expandToken szPid szTok.length szTok with
      | Res.fault => Res.fault
      | Res.timeout => Res.timeout
      | Res.ok arg =>
        match tokenizeLoop szPid n rest with
        | Res.fault => Res.fault
        | Res.timeout => Res.timeout
        | Res.ok args => Res.ok (arg :: args)

/-! ## The builtins and the command section of `main` (smallsh.c, lines 138-296) -/

/-- The directory-related calls of the `cd` builtin as answered by the operating system: the
result of `getcwd(NULL, 0)` (`none` for a null pointer), the return value of `chdir` and the
value of `errno` after it. -/
structure DirOracle where
  getcwdRet : Trace → Option CStr
  chdirRet : Trace → Option CStr → Int
  chdirErrno : Trace → Option CStr → Int

/-- The `errno` value `ENOTDIR` of `<errno.h>` (Linux). -/
def ENOTDIR : Int := 20

/-- The `cd` builtin (lines 150-185) on the tokens behind `cd`: without an argument, or with
`&` as the argument, change to `HOME` and on success set `PWD` and print the old directory;
otherwise change to the argument with a leading `~` replaced by `HOME`, on success set `PWD` to
the new working directory and print the old one, on failure print one of two messages chosen by
`errno`. Returns the history. -/
def cdBuiltin (dir : DirOracle) (szHome : Option CStr) (rest : List CStr) (tr : Trace) :
    Res Trace :=
  let szOdir := dir.getcwdRet tr
  let tr := tr ++ [SysEvent.sysGetcwd szOdir]
  match rest with
  | [] =>
    if dir.chdirRet tr szHome = 0 then
      Res.ok (tr ++ [SysEvent.sysChdir szHome 0, SysEvent.sysSetenv "PWD" szHome,
        SysEvent.printfStr "WAS %s\n" [szOdir]])
    else Res.ok (tr ++ [SysEvent.sysChdir szHome (dir.chdirRet tr szHome)])
  | arg :: _ =>
    if arg = szAmp then
      if dir.chdirRet tr szHome = 0 then
        Res.ok (tr ++ [SysEvent.sysChdir szHome 0, SysEvent.sysSetenv "PWD" szHome,
          SysEvent.printfStr "WAS %s\n" [szOdir]])
      else Res.ok (tr ++ [SysEvent.sysChdir szHome (dir.chdirRet tr szHome)])
    else
      match fnPnPrependHomeMaybe szHome arg with
      | Res.fault => Res.fault
      | Res.timeout => Res.timeout
      | Res.ok szChd =>
        if dir.chdirRet tr (some szChd) = 0 then
          let tr2 := tr ++ [SysEvent.sysChdir (some szChd) 0]
          let szCwd := dir.getcwdRet tr2
          Res.ok (tr2 ++ [SysEvent.sysGetcwd szCwd, SysEvent.sysSetenv "PWD" szCwd,
            SysEvent.printfStr "WAS %s\n" [szOdir]])
        else
          let tr2 := tr ++ [SysEvent.sysChdir (some szChd) (dir.chdirRet tr (some szChd))]
          if dir.chdirErrno tr (some szChd) = ENOTDIR then
            Res.ok (tr2 ++
              [SysEvent.printfStr "CD: Cannot change to %s: Not a directory\n" [some szChd]])
          else
            Res.ok (tr2 ++ [SysEvent.printfStr "CD: %s: No such file or directory\n" [some szChd]])

/-- The `status` builtin (lines 186-191): one of two messages, chosen by `bLastFgPSigTerm`,
carrying `sLastFgPStat`. -/
def statusBuiltin (sh : Shell) : Trace :=
  if sh.bLastFgPSigTerm ≠ 0 then
    [SysEvent.printf "LAST FOREGROUND PROCESS TERMINATED by signal %d\n" [sh.sLastFgPStat]]
  else [SysEvent.printf "LAST FOREGROUND PROCESS EXITED with status %d\n" [sh.sLastFgPStat]]

/-- The variables of `main` before the first loop iteration (lines 71-76): last status 0, not
terminated by a signal, no background processes. -/
def initialShell : Shell :=
  { bLastFgPSigTerm := 0, sLastFgPStat := 0, plBackgroundProcesses := [], hist := [] }

/-- The command section of `main` (lines 138-296) for the token array `arrszArgs`: an empty
array or a first token `<`, `>` or `&` jumps to `CLEANUP`; `exit` releases the memory of the
arguments and of the process list and leaves the loop, after which `main` returns 0; `cd` and
`status` run the builtin; everything else is an external command. Except after `exit`, the poll
at `CLEANUP` follows. -/
def commandSection (os : Oracle) (dir : DirOracle) (szHome : Option CStr)
    (bForegroundOnly : Int) (arrszArgs : List CStr) (sh : Shell) : Res Outcome :=
  match arrszArgs with
  | [] => cleanupPoll os sh
  | first :: rest =>
    if first = szLt ∨ first = szGt ∨ first = szAmp then cleanupPoll os sh
    else if first = "exit".toList then Res.ok (Outcome.exited 0 sh.hist)
    else if first = "cd".toList then
      match cdBuiltin dir szHome rest sh.hist with
      | Res.fault => Res.fault
      | Res.timeout => Res.timeout
      | Res.ok tr => cleanupPoll os { sh with hist := tr }
    else if first = "status".toList then
      cleanupPoll os { sh with hist := sh.hist ++ statusBuiltin sh }
    else externalCommandLine os szHome bForegroundOnly arrszArgs sh

/-- One iteration of the main loop (lines 79-298) on the bytes `szLine` that `getline` stored
(without the terminating NUL that `getline` appends; `*szLine` is the first of them, or that NUL
when there is none): print the prompt; a line whose first character is `#` or a newline only polls the background
processes (the loop of lines 88-106, the same statements as at `CLEANUP`); any other line is
tokenized with the pid string `szPid` and handed to the command section. -/
def mainIteration (os : Oracle) (dir : DirOracle) (szHome : Option CStr) (szPid : CStr)
    (bForegroundOnly : Int) (szLine : CStr) (sh : Shell) : Res Outcome :=
  if szLine.head? = some '#' ∨ szLine.head? = some '\n' then
    cleanupPoll os { sh with hist := sh.hist ++ [SysEvent.printf ": " []] }
  else
    match tokenizeLoop szPid 511 szLine with
    | Res.fault => Res.fault
    | Res.timeout => Res.timeout
    | Res.ok arrszArgs =>
      commandSection os dir szHome bForegroundOnly arrszArgs
        { sh with hist := sh.hist ++ [SysEvent.printf ": " []] }

/-- A directory oracle for examples: the working directory is `/`, every `chdir` succeeds. -/
def demoDirOracle : DirOracle where
  getcwdRet := fun _ => some ['/']
  chdirRet := fun _ _ => 0
  chdirErrno := fun _ _ => 0

/-- The actions a poll of the background processes performs: non-blocking `waitpid` calls,
`close` calls and the two lines of a DONE report. -/
def IsPollEvent (e : SysEvent) : Prop :=
  match e with
  | SysEvent.sysWaitpid _ nohang _ _ => nohang = true
  | SysEvent.sysClose _ => True
  | SysEvent.printf fmt _ =>
    fmt = "DONE with background process with pid [%d]: " ∨ fmt = "Exited with status %d\n" ∨
      fmt = "Terminated by signal %d\n"
  | _ => False

/-- An oracle for examples on which the null device cannot be opened (`open` returns -1) while
every other path opens as descriptor 3 plus the number of earlier calls. -/
def demoNoNullOracle : Oracle :=
  { demoOracle with
    openRet := fun tr path _ => if path = szDevNull then -1 else 3 + (tr.length : Int) }

/-- Specification: the DONE report of a terminated job, namely a line naming its pid followed by
its exit code when the wait status is that of an exit, and by its terminating signal
otherwise. -/
def doneReport (pid status : Int) : Trace :=
  [SysEvent.printf "DONE with background process with pid [%d]: " [pid],
   if WIFEXITED status then SysEvent.printf "Exited with status %d\n" [WEXITSTATUS status]
   else SysEvent.printf "Terminated by signal %d\n" [WTERMSIG status]]

/-- Specification: what one poll pass is to do for the job `n` when the non-blocking wait
answers `ans` for it. For a job still running (answer 0) only the wait call; for a terminated
job the wait call returning its pid, the release of its descriptors other than the standard
input 0 and the standard output 1, and its DONE report. -/
def expectedPollActions (ans : Int × Int) (n : stProcessList) : Trace :=
  if ans.1 = 0 then [SysEvent.sysWaitpid n.pidSelf true 0 ans.2]
  else
    [SysEvent.sysWaitpid n.pidSelf true n.pidSelf ans.2] ++
    (if n.fdIn = 0 then [] else [SysEvent.sysClose n.fdIn]) ++
    (if n.fdOut = 1 then [] else [SysEvent.sysClose n.fdOut]) ++
    doneReport n.pidSelf ans.2

/-! ## The last foreground status as recorded in the history -/

/-- Whether an event is a blocking `waitpid`. The only blocking `waitpid` of the program is the
one on a foreground child (line 253); the polls call it with `WNOHANG`. -/
def isForegroundWait : SysEvent → Bool
  | SysEvent.sysWaitpid _ false _ _ => true
  | _ => false

/-- One step of the scan for the last foreground wait: a blocking `waitpid` replaces the status
remembered so far by the one it stored. -/
def recordWait (acc : Option Int) (e : SysEvent) : Option Int :=
  match e with
  | SysEvent.sysWaitpid _ false _ status => some status
  | _ => acc

/-- The wait status of the last foreground child according to the history: the status stored by
the last blocking `waitpid`, `none` when no foreground child was waited for yet. -/
def lastForegroundWait (tr : Trace) : Option Int := tr.foldl recordWait none

/-- The two status variables of `main` agree with the history: both are 0 before any foreground
child was waited for, and afterwards they hold whether the last foreground child was signaled
and its terminating signal or exit code. -/
def StatusInv (sh : Shell) : Prop :=
  match lastForegroundWait sh.hist with
  | none => sh.bLastFgPSigTerm = 0 ∧ sh.sLastFgPStat = 0
  | some status =>
    sh.bLastFgPSigTerm = (if WIFSIGNALED status then 1 else 0) ∧
    sh.sLastFgPStat = (if WIFSIGNALED status then WTERMSIG status else WEXITSTATUS status)

/-- The `while (1)` loop of `main` (lines 79-298) on the successive line buffers `getline`
delivers, each paired with the value of the mode flag `bForegroundOnly` at the time the line is
handled: the iterations follow one another until the input given is used up, the process exits,
or the process is a forked child. -/
def mainLoop (os : Oracle) (dir : DirOracle) (szHome : Option CStr) (szPid : CStr) :
    List (Int × List Char) → Shell → Res Outcome
  | [], sh => Res.ok (Outcome.next sh)
  | (bForegroundOnly, szLine) :: rest, sh =>
    match mainIteration os dir szHome szPid bForegroundOnly szLine sh with
    | Res.ok (Outcome.next sh2) => mainLoop os dir szHome szPid rest sh2
    | Res.ok (Outcome.exited status tr) => Res.ok (Outcome.exited status tr)
    | Res.ok (Outcome.child comC tr) => Res.ok (Outcome.child comC tr)
    | Res.fault => Res.fault
    | Res.timeout => Res.timeout

/-- An oracle for examples on which a foreground child exits with code 2 while every background
child polled has been killed by signal 9. -/
def demoMixedOracle : Oracle :=
  { demoOracle with waitRet := fun _ pid nohang => if nohang then (pid, 9) else (pid, 512) }

/-- A prefix is inert when the search for the marker in any extension of it finds exactly the
occurrences of the extension. -/
def Inert (d : CStr) : Prop :=
  ∀ x, strstr (d ++ x) szMarker = (strstr x szMarker).map (· + d.length)

/-- The descriptor `fd` is the result of an `open` with flags `fl`, recorded in `ev`, of the path
of some token of the line `t`. -/
def RedirOpened (szHome : Option CStr) (t : List CStr) (fl : OpenFlags) (ev : Trace)
    (fd : Int) : Prop :=
  ∃ tok path, tok ∈ t ∧ fnPnPrependHomeMaybe szHome tok = Res.ok path ∧
    SysEvent.sysOpen path fl fd ∈ ev

/-- The descriptor `fd` is the result of an `open` of the null device with flags `fl`, recorded
in `ev`. -/
def NullOpened (fl : OpenFlags) (ev : Trace) (fd : Int) : Prop :=
  SysEvent.sysOpen szDevNull fl fd ∈ ev

/-- Loop invariant of `fnStCommandCreate` while the command is still a foreground command: each
descriptor is the default one or was opened for a filename of the line since `tr`. -/
def ForegroundInv (szHome : Option CStr) (t : List CStr) (tr : Trace) (st : Compiler) : Prop :=
  st.comC.bForeground = 1 ∧ ∃ ev, st.hist = tr ++ ev ∧
    (st.comC.fdIn = STDIN_FILENO ∨ RedirOpened szHome t OpenFlags.O_RDONLY ev st.comC.fdIn) ∧
    (st.comC.fdOut = STDOUT_FILENO ∨
      RedirOpened szHome t OpenFlags.O_CREAT_TRUNC_WRONLY ev st.comC.fdOut)

/-- State of `fnStCommandCreate` once the command has been made a background command: no
descriptor is a standard one, each was opened for a filename of the line or on the null device
since `tr`. -/
def BackgroundPost (szHome : Option CStr) (t : List CStr) (tr : Trace) (st : Compiler) : Prop :=
  st.comC.fdIn ≠ STDIN_FILENO ∧ st.comC.fdOut ≠ STDOUT_FILENO ∧ ∃ ev, st.hist = tr ++ ev ∧
    (RedirOpened szHome t OpenFlags.O_RDONLY ev st.comC.fdIn ∨
      NullOpened OpenFlags.O_RDONLY ev st.comC.fdIn) ∧
    (RedirOpened szHome t OpenFlags.O_CREAT_TRUNC_WRONLY ev st.comC.fdOut ∨
      NullOpened OpenFlags.O_WRONLY ev st.comC.fdOut)

end Smallsh

namespace Smallsh

/-! ## Facts about the string primitives -/

theorem strstr_marker_cons (c : Char) (t : CStr) :
    strstr (c :: t) szMarker =
      if c = '$' ∧ t.head? = some '$' then some 0 else (strstr t szMarker).map (· + 1) := by
  cases t with
  | nil => simp [strstr, szMarker, List.isPrefixOf]
  | cons d t =>
    by_cases h1 : c = '$' <;> by_cases h2 : d = '$' <;>
      simp [strstr, szMarker, List.isPrefixOf, h1, h2, Ne.symm]

theorem strstr_marker_nil : strstr [] szMarker = none := by
  simp [strstr, szMarker]

theorem strstr_none_not_infix (s : CStr) (h : strstr s szMarker = none) : ¬ szMarker <:+: s := by
  induction s with
  | nil => simp [szMarker]
  | cons c t ih =>
    rw [strstr_marker_cons] at h
    split at h
    · simp at h
    · rename_i hc
      simp only [Option.map_eq_none'] at h
      rw [List.infix_cons_iff]
      rintro (hp | hi)
      · apply hc
        obtain ⟨r, hr⟩ := hp
        simp only [szMarker, List.cons_append, List.nil_append, List.cons.injEq] at hr
        obtain ⟨h1, h2⟩ := hr
        subst h1
        subst h2
        simp
      · exact ih h hi

theorem strstr_marker_some (s : CStr) (m : Nat) (h : strstr s szMarker = some m) :
    s = s.take m ++ szMarker ++ s.drop (m + 2) ∧ m + 2 ≤ s.length := by
  induction s generalizing m with
  | nil => simp [strstr_marker_nil] at h
  | cons c t ih =>
    rw [strstr_marker_cons] at h
    split at h
    · rename_i hc
      obtain ⟨h1, h2⟩ := hc
      cases h
      cases t with
      | nil => simp at h2
      | cons d t =>
        simp only [List.head?_cons, Option.some.injEq] at h2
        subst h1
        subst h2
        simp [szMarker]
    · simp only [Option.map_eq_some'] at h
      obtain ⟨k, hk, rfl⟩ := h
      obtain ⟨e1, e2⟩ := ih k hk
      constructor
      · simp only [List.take_succ_cons, List.cons_append, List.drop_succ_cons, List.cons.injEq,
          true_and]
        exact e1
      · simp only [List.length_cons]
        omega

theorem inert_nil : Inert [] := by
  intro x
  simp

theorem inert_append (d e : CStr) (hd : Inert d) (he : Inert e) : Inert (d ++ e) := by
  intro x
  rw [List.append_assoc, hd, he, Option.map_map]
  congr 1
  funext n
  simp only [Function.comp_apply, List.length_append]
  omega

theorem inert_take (s : CStr) (m : Nat) (h : strstr s szMarker = some m) : Inert (s.take m) := by
  induction s generalizing m with
  | nil => simp [strstr_marker_nil] at h
  | cons c t ih =>
    rw [strstr_marker_cons] at h
    split at h
    · cases h
      simpa using inert_nil
    · rename_i hc
      simp only [Option.map_eq_some'] at h
      obtain ⟨k, hk, rfl⟩ := h
      intro x
      have hlen := (strstr_marker_some t k hk).2
      simp only [List.take_succ_cons, List.cons_append, List.length_cons]
      rw [strstr_marker_cons, ih k hk x, Option.map_map]
      have hne : ¬ (c = '$' ∧ (List.take k t ++ x).head? = some '$') := by
        rintro ⟨h1, h2⟩
        apply hc
        refine ⟨h1, ?_⟩
        cases k with
        | zero =>
          have := (strstr_marker_some t 0 hk).1
          rw [this]
          simp [szMarker]
        | succ k =>
          cases t with
          | nil => simp at hlen
          | cons d t => simpa using h2
      rw [if_neg hne]
      have hmin : (List.take k t).length = k := by
        rw [List.length_take]
        omega
      rw [hmin]
      rfl

theorem inert_digits (p : CStr) (hp : ∀ c ∈ p, c.isDigit = true) : Inert p := by
  induction p with
  | nil => exact inert_nil
  | cons c t ih =>
    intro x
    have hc : c ≠ '$' := by
      intro h
      have := hp c (List.mem_cons_self _ _)
      rw [h] at this
      revert this
      decide
    simp only [List.cons_append, List.length_cons]
    rw [strstr_marker_cons, if_neg (fun h => hc h.1),
      ih (fun a ha => hp a (List.mem_cons_of_mem _ ha)) x, Option.map_map]
    rfl

/-! ## Reference semantics versus the first occurrence found by `strstr` -/

theorem substMarker_of_strstr_none (p s : CStr) (h : strstr s szMarker = none) :
    substMarker p s = s ∧ countMarker s = 0 := by
  induction s with
  | nil => simp [substMarker, countMarker]
  | cons c t ih =>
    rw [strstr_marker_cons] at h
    split at h
    · simp at h
    · rename_i hc
      simp only [Option.map_eq_none'] at h
      cases t with
      | nil => simp [substMarker, countMarker]
      | cons d t =>
        simp only [List.head?_cons, Option.some.injEq] at hc
        simp only [substMarker, countMarker, if_neg hc]
        exact ⟨by rw [(ih h).1], (ih h).2⟩

theorem substMarker_of_strstr_some (p s : CStr) (m : Nat) (h : strstr s szMarker = some m) :
    substMarker p s = s.take m ++ p ++ substMarker p (s.drop (m + 2)) ∧
    countMarker s = countMarker (s.drop (m + 2)) + 1 := by
  induction s generalizing m with
  | nil => simp [strstr_marker_nil] at h
  | cons c t ih =>
    rw [strstr_marker_cons] at h
    split at h
    · rename_i hc
      cases h
      cases t with
      | nil => simp at hc
      | cons d t =>
        simp only [List.head?_cons, Option.some.injEq] at hc
        simp [substMarker, countMarker, if_pos hc]
    · rename_i hc
      simp only [Option.map_eq_some'] at h
      obtain ⟨k, hk, rfl⟩ := h
      cases t with
      | nil => simp [strstr_marker_nil] at hk
      | cons d t =>
        simp only [List.head?_cons, Option.some.injEq] at hc
        obtain ⟨e1, e2⟩ := ih k hk
        simp only [substMarker, countMarker, if_neg hc]
        constructor
        · rw [e1]
          simp
        · rw [e2]
          simp

theorem substMarker_length (p s : CStr) :
    ((substMarker p s).length : Int) = s.length + countMarker s * ((p.length : Int) - 2) := by
  generalize hn : s.length = n
  induction n using Nat.strong_induction_on generalizing s with
  | _ n ih =>
    subst hn
    cases hs : strstr s szMarker with
    | none =>
      obtain ⟨e1, e2⟩ := substMarker_of_strstr_none p s hs
      rw [e1, e2]
      simp
    | some m =>
      obtain ⟨e1, e2⟩ := substMarker_of_strstr_some p s m hs
      obtain ⟨_, hl⟩ := strstr_marker_some s m hs
      have hrec := ih (s.drop (m + 2)).length (by simp only [List.length_drop]; omega)
        (s.drop (m + 2)) rfl
      rw [e1, e2]
      simp only [List.length_append, List.length_take, Nat.cast_add, hrec, List.length_drop]
      have h1 : min m s.length = m := by omega
      rw [h1]
      push_cast
      have h2 : ((s.length - (m + 2) : Nat) : Int) = (s.length : Int) - (m + 2) := by omega
      rw [h2]
      ring

theorem substMarker_of_count_zero (p s : CStr) (h : countMarker s = 0) : substMarker p s = s := by
  cases hs : strstr s szMarker with
  | none => exact (substMarker_of_strstr_none p s hs).1
  | some m =>
    have := (substMarker_of_strstr_some p s m hs).2
    omega

/-! ## The expansion loop computes the reference semantics -/

theorem fnResizeString_grows (fuel : Nat) (s : CStr) (start goal : Nat)
    (h1 : 1 ≤ start) (h2 : s.length + 1 ≤ start) (h3 : goal ≤ start + fuel) :
    ∃ cap, fnResizeString fuel s start goal = Res.ok (s, cap) ∧ goal ≤ cap ∧ start ≤ cap := by
  induction fuel generalizing start with
  | zero =>
    refine ⟨start, ?_, by omega, le_refl _⟩
    unfold fnResizeString
    rw [if_neg (by omega)]
  | succ fuel ih =>
    unfold fnResizeString
    by_cases hg : goal > start
    · rw [if_pos hg]
      have hfit : 0 + s.length + 1 ≤ start * 2 := by omega
      simp only [strcpyAt, if_pos hfit, Nat.zero_le, if_true, List.take_zero, List.nil_append]
      obtain ⟨cap, e, c1, c2⟩ := ih (start * 2) (by omega) (by omega) (by omega)
      exact ⟨cap, e, c1, by omega⟩
    · rw [if_neg hg]
      exact ⟨start, rfl, by omega, le_refl _⟩

theorem expandLoop_inert (p : CStr) (hp : ∀ c ∈ p, c.isDigit = true) (fuel : Nat) :
    ∀ (d s : CStr) (cap asz : Nat), Inert d → s.length ≤ fuel →
      asz = (d ++ s).length + 1 → asz ≤ cap →
      expandLoop p fuel (d ++ s) cap asz = Res.ok (d ++ substMarker p s) := by
  induction fuel with
  | zero =>
    intro d s cap asz hd hs _ _
    have : s = [] := List.eq_nil_of_length_eq_zero (by omega)
    subst this
    unfold expandLoop
    rw [hd, strstr_marker_nil]
    simp [substMarker]
  | succ fuel ih =>
    intro d s cap asz hd hs hasz hcap
    unfold expandLoop
    rw [hd]
    cases hm : strstr s szMarker with
    | none =>
      simp only [Option.map_none']
      rw [(substMarker_of_strstr_none p s hm).1]
    | some m =>
      obtain ⟨hdec, hlen⟩ := strstr_marker_some s m hm
      obtain ⟨hsub, _⟩ := substMarker_of_strstr_some p s m hm
      simp only [Option.map_some']
      have hlen2 : (d ++ s).length = d.length + s.length := List.length_append _ _
      obtain ⟨cap2, e, c1, _⟩ := fnResizeString_grows (asz + p.length - 2) (d ++ s) cap
        (asz + p.length - 2) (by omega) (by omega) (by omega)
      rw [e]
      simp only []
      rw [hd, hm]
      simp only [Option.map_some']
      have hfit1 : m + d.length + p.length + 1 ≤ cap2 := by omega
      have hin1 : m + d.length ≤ (d ++ s).length := by omega
      simp only [strcpyAt, if_pos hfit1, if_pos hin1]
      have htake : List.take (m + d.length) (d ++ s) = d ++ s.take m := by
        rw [List.take_append_eq_append_take]
        have h1 : List.take (m + d.length) d = d := List.take_of_length_le (by omega)
        have h2 : m + d.length - d.length = m := by omega
        rw [h1, h2]
      have hdrop : List.drop (m + d.length + 2) (d ++ s) = s.drop (m + 2) := by
        rw [List.drop_append_eq_append_drop]
        have h1 : List.drop (m + d.length + 2) d = [] := List.drop_of_length_le (by omega)
        have h2 : m + d.length + 2 - d.length = m + 2 := by omega
        rw [h1, h2, List.nil_append]
      rw [htake, hdrop]
      have hl3 : (d ++ List.take m s ++ p).length = m + d.length + p.length := by
        simp only [List.length_append, List.length_take]
        omega
      have hl4 : (s.drop (m + 2)).length = s.length - (m + 2) := List.length_drop _ _
      have hfit2 : m + d.length + p.length + (s.drop (m + 2)).length + 1 ≤ cap2 := by omega
      have hin2 : m + d.length + p.length ≤ (d ++ List.take m s ++ p).length := by omega
      simp only [if_pos hfit2, if_pos hin2]
      have htk : List.take (m + d.length + p.length) (d ++ List.take m s ++ p)
          = d ++ List.take m s ++ p := List.take_of_length_le (by omega)
      rw [htk]
      have hinert : Inert (d ++ List.take m s ++ p) :=
        inert_append _ _ (inert_append _ _ hd (inert_take s m hm)) (inert_digits p hp)
      rw [ih (d ++ List.take m s ++ p) (s.drop (m + 2)) cap2 (asz + p.length - 2) hinert
        (by omega) (by rw [List.length_append, hl3, hl4]; omega) c1]
      rw [hsub]
      simp only [List.append_assoc]

theorem expandLoop_result_clean (p : CStr) (fuel : Nat) :
    ∀ (s : CStr) (cap asz : Nat) (r : CStr),
      expandLoop p fuel s cap asz = Res.ok r → strstr r szMarker = none := by
  induction fuel with
  | zero =>
    intro s cap asz r h
    unfold expandLoop at h
    split at h
    · cases h
      assumption
    · simp at h
  | succ fuel ih =>
    intro s cap asz r h
    unfold expandLoop at h
    split at h
    · cases h
      assumption
    · simp only at h
      split at h
      · cases h
      · cases h
      · split at h
        · cases h
        · split at h
          · cases h
          · cases h
          · split at h
            · cases h
            · cases h
            · exact ih _ _ _ _ h

/-- C1. For every token `T` and every decimal pid string `P` (non-empty, digits only), the
expansion loop of the tokenizer, given at least `T.length` units of fuel, returns the token in
which each of the `k` non-overlapping occurrences of `$$` (scanning left to right) is replaced by
`P`; the result contains no `$$`, its length is `len T + k * (len P - 2)`, and a token with
`k = 0` is returned unchanged. -/
theorem expandToken_replaces_all_markers (P T : CStr) (hP : IsPidString P)
    (fuel : Nat) (hfuel : T.length ≤ fuel) :
    expandToken P fuel T = Res.ok (substMarker P T) ∧
    ¬ szMarker <:+: substMarker P T ∧
    ((substMarker P T).length : Int)
      = (T.length : Int) + (countMarker T : Int) * ((P.length : Int) - 2) ∧
    (countMarker T = 0 → expandToken P fuel T = Res.ok T) := by
  have hrun : expandToken P fuel T = Res.ok (substMarker P T) := by
    have := expandLoop_inert P hP.2 fuel [] T (T.length + 1) (T.length + 1) inert_nil hfuel
      (by simp) (le_refl _)
    simpa [expandToken] using this
  refine ⟨hrun, ?_, substMarker_length P T, ?_⟩
  · exact strstr_none_not_infix _ (expandLoop_result_clean P fuel _ _ _ _ hrun)
  · intro hk
    rw [hrun, substMarker_of_count_zero P T hk]

/-- Witness for C1: pid string `4242`, token `a$$b$$$`. -/
theorem expandToken_replaces_all_markers_witness :
    expandToken "4242".toList 7 "a$$b$$$".toList
        = Res.ok (substMarker "4242".toList "a$$b$$$".toList) ∧
    ¬ szMarker <:+: substMarker "4242".toList "a$$b$$$".toList ∧
    ((substMarker "4242".toList "a$$b$$$".toList).length : Int)
      = ("a$$b$$$".toList.length : Int) + (countMarker "a$$b$$$".toList : Int)
          * (("4242".toList.length : Int) - 2) ∧
    (countMarker "a$$b$$$".toList = 0 →
      expandToken "4242".toList 7 "a$$b$$$".toList = Res.ok "a$$b$$$".toList) :=
  expandToken_replaces_all_markers "4242".toList "a$$b$$$".toList (by decide) 7 (by decide)

/-! ## The command compiler on argument prefixes -/

theorem fnPnPrependHomeMaybe_plain (szHome : Option CStr) (p : CStr)
    (h : p.head? ≠ some '~') : fnPnPrependHomeMaybe szHome p = Res.ok p := by
  simp [fnPnPrependHomeMaybe, h]

theorem fnPnPrependHomeMaybe_tilde (home rest : CStr) :
    fnPnPrependHomeMaybe (some home) ('~' :: rest) = Res.ok (home ++ rest) := by
  have h1 : 0 + home.length + 1 ≤ home.length + (rest.length + 1) := by omega
  have h2 : home.length + rest.length + 1 ≤ home.length + (rest.length + 1) := by omega
  simp [fnPnPrependHomeMaybe, strcpyAt, h1, h2]

theorem compileStep_literal (os : Oracle) (szHome : Option CStr) (fo : Int) (tok : CStr)
    (more : Bool) (st : Compiler) (hph : st.sPhase = 0) (hlit : IsLiteral tok) :
    compileStep os szHome fo tok more st =
      Res.ok { st with comC := { st.comC with arrsz_args := st.comC.arrsz_args ++ [tok] } } := by
  obtain ⟨h1, h2, h3⟩ := hlit
  simp [compileStep, hph, h1, h2, h3]

theorem compileLoop_literals (os : Oracle) (szHome : Option CStr) (fo : Int) (a : List CStr) :
    ∀ (r : List CStr) (idx : Nat) (st : Compiler), (∀ x ∈ a, IsLiteral x) →
      st.sPhase = 0 → st.idMyErrno = 0 → idx + a.length ≤ 511 →
      compileLoop os szHome fo (a ++ r) idx st =
        compileLoop os szHome fo r (idx + a.length)
          { st with comC := { st.comC with arrsz_args := st.comC.arrsz_args ++ a } } := by
  induction a with
  | nil =>
    intro r idx st _ _ _ _
    simp
  | cons x a ih =>
    intro r idx st hlit hph herr hlen
    simp only [List.length_cons] at hlen
    have hidx : idx < 511 := by omega
    simp only [List.cons_append, compileLoop, hidx, herr, and_self, if_true, List.append_eq]
    rw [compileStep_literal os szHome fo x _ st hph (hlit x (List.mem_cons_self _ _))]
    simp only []
    rw [ih r (idx + 1)
      { st with comC := { st.comC with arrsz_args := st.comC.arrsz_args ++ [x] } }
      (fun y hy => hlit y (List.mem_cons_of_mem _ hy)) hph herr (by omega)]
    simp only [List.append_assoc, List.singleton_append, List.length_cons, herr]
    congr 1
    omega

/-- C2. For every list of literal arguments `a` and filenames `f`, `g` whose paths (after the
tilde substitution) open successfully, `fnStCommandCreate` on `a ++ ["<", f, ">", g]` returns 0
for every value of the mode flag, with argument vector `a`, foreground flag 1, input descriptor
the result of opening the path of `f` read-only and output descriptor the result of opening the
path of `g` with create/truncate/write-only; these two `open` calls are all it does. -/
theorem fnStCommandCreate_in_out (os : Oracle) (szHome : Option CStr) (tr : Trace)
    (a : List CStr) (f g pf pg : CStr) (bForegroundOnly : Int)
    (hlit : ∀ x ∈ a, IsLiteral x)
    (hlen : (a ++ [szLt, f, szGt, g]).length ≤ 511)
    (hpf : fnPnPrependHomeMaybe szHome f = Res.ok pf)
    (hpg : fnPnPrependHomeMaybe szHome g = Res.ok pg)
    (hf : 0 ≤ (sysOpen os tr pf OpenFlags.O_RDONLY).1)
    (hg : 0 ≤ (sysOpen os (sysOpen os tr pf OpenFlags.O_RDONLY).2 pg
      OpenFlags.O_CREAT_TRUNC_WRONLY).1) :
    fnStCommandCreate os szHome tr (a ++ [szLt, f, szGt, g]) bForegroundOnly =
      Res.ok {
        idMyErrno := 0,
        comC := {
          arrsz_args := a,
          fdIn := (sysOpen os tr pf OpenFlags.O_RDONLY).1,
          fdOut := (sysOpen os (sysOpen os tr pf OpenFlags.O_RDONLY).2 pg
            OpenFlags.O_CREAT_TRUNC_WRONLY).1,
          bForeground := 1 },
        hist := (sysOpen os (sysOpen os tr pf OpenFlags.O_RDONLY).2 pg
          OpenFlags.O_CREAT_TRUNC_WRONLY).2 } := by
  simp only [List.length_append, List.length_cons, List.length_nil] at hlen
  unfold fnStCommandCreate
  rw [compileLoop_literals os szHome bForegroundOnly a _ 0 _ hlit rfl rfl (by omega)]
  have i1 : a.length < 511 := by omega
  have i2 : a.length + 1 < 511 := by omega
  have i3 : a.length + 1 + 1 < 511 := by omega
  have i4 : a.length + 1 + 1 + 1 < 511 := by omega
  have nf : ¬ (sysOpen os tr pf OpenFlags.O_RDONLY).1 < 0 := by omega
  have ng : ¬ (sysOpen os (sysOpen os tr pf OpenFlags.O_RDONLY).2 pg
      OpenFlags.O_CREAT_TRUNC_WRONLY).1 < 0 := by omega
  simp [compileLoop, compileStep, i1, i2, i3, i4, hpf, hpg, nf, ng]

/-- Witness for C2: `cmd -l < ~/in > out` with `HOME=/home/u`. -/
theorem fnStCommandCreate_in_out_witness :
    fnStCommandCreate demoOracle (some "/home/u".toList) []
        (["cmd".toList, "-l".toList] ++ [szLt, "~/in".toList, szGt, "out".toList]) 1 =
      Res.ok {
        idMyErrno := 0,
        comC := {
          arrsz_args := ["cmd".toList, "-l".toList],
          fdIn := (sysOpen demoOracle [] "/home/u/in".toList OpenFlags.O_RDONLY).1,
          fdOut := (sysOpen demoOracle
            (sysOpen demoOracle [] "/home/u/in".toList OpenFlags.O_RDONLY).2 "out".toList
            OpenFlags.O_CREAT_TRUNC_WRONLY).1,
          bForeground := 1 },
        hist := (sysOpen demoOracle
          (sysOpen demoOracle [] "/home/u/in".toList OpenFlags.O_RDONLY).2 "out".toList
          OpenFlags.O_CREAT_TRUNC_WRONLY).2 } :=
  fnStCommandCreate_in_out demoOracle (some "/home/u".toList) []
    ["cmd".toList, "-l".toList] "~/in".toList "out".toList "/home/u/in".toList "out".toList 1
    (by decide) (by decide) (by decide) (by decide) (by decide) (by decide)

/-- C5. For every list of literal arguments `a`, `fnStCommandCreate` on `a ++ ["<"]` returns
error kind 1 and on `a ++ [">"]` error kind 2, for every value of the mode flag; the history is
unchanged (no file is opened) and the struct holds `a` with the default descriptors. -/
theorem fnStCommandCreate_missing_filename (os : Oracle) (szHome : Option CStr) (tr : Trace)
    (a : List CStr) (bForegroundOnly : Int)
    (hlit : ∀ x ∈ a, IsLiteral x) (hlen : a.length + 1 ≤ 511) :
    fnStCommandCreate os szHome tr (a ++ [szLt]) bForegroundOnly =
      Res.ok {
        idMyErrno := 1,
        comC := { arrsz_args := a, fdIn := STDIN_FILENO, fdOut := STDOUT_FILENO,
                  bForeground := 1 },
        hist := tr } ∧
    fnStCommandCreate os szHome tr (a ++ [szGt]) bForegroundOnly =
      Res.ok {
        idMyErrno := 2,
        comC := { arrsz_args := a, fdIn := STDIN_FILENO, fdOut := STDOUT_FILENO,
                  bForeground := 1 },
        hist := tr } := by
  have i1 : a.length < 511 := by omega
  constructor
  · unfold fnStCommandCreate
    rw [compileLoop_literals os szHome bForegroundOnly a _ 0 _ hlit rfl rfl (by omega)]
    simp [compileLoop, compileStep, i1]
  · unfold fnStCommandCreate
    rw [compileLoop_literals os szHome bForegroundOnly a _ 0 _ hlit rfl rfl (by omega)]
    simp [compileLoop, compileStep, i1, szLt, szGt]

/-- Witness for C5: `cmd <` and `cmd >` in foreground-only mode. -/
theorem fnStCommandCreate_missing_filename_witness :
    fnStCommandCreate demoOracle none [] (["cmd".toList] ++ [szLt]) 1 =
      Res.ok {
        idMyErrno := 1,
        comC := { arrsz_args := ["cmd".toList], fdIn := STDIN_FILENO, fdOut := STDOUT_FILENO,
                  bForeground := 1 },
        hist := [] } ∧
    fnStCommandCreate demoOracle none [] (["cmd".toList] ++ [szGt]) 1 =
      Res.ok {
        idMyErrno := 2,
        comC := { arrsz_args := ["cmd".toList], fdIn := STDIN_FILENO, fdOut := STDOUT_FILENO,
                  bForeground := 1 },
        hist := [] } :=
  fnStCommandCreate_missing_filename demoOracle none [] ["cmd".toList] 1 (by decide) (by decide)

/-! ## A trailing `&` in foreground-only mode -/

theorem compileLoop_stopped (os : Oracle) (szHome : Option CStr) (fo : Int)
    (l : List CStr) (idx : Nat) (st : Compiler) (h : st.idMyErrno ≠ 0) :
    compileLoop os szHome fo l idx st = Res.ok st := by
  cases l with
  | nil => rfl
  | cons x l => simp [compileLoop, h]

theorem compileStep_amp_foreground_only (os : Oracle) (szHome : Option CStr) (fo : Int)
    (hfo : fo ≠ 0) (st : Compiler) (h1 : st.sPhase ≠ 1) (h3 : st.sPhase ≠ 3) :
    compileStep os szHome fo szAmp false st = Res.ok st := by
  obtain ⟨comC, ph, err, hist⟩ := st
  simp only at h1 h3
  rcases ph with _ | _ | _ | _ | _ | n
  · simp [compileStep, szAmp, szLt, szGt, hfo]
  · exact absurd rfl h1
  · simp [compileStep, szAmp, szGt, hfo]
  · exact absurd rfl h3
  · simp [compileStep, hfo]
  · simp [compileStep]

theorem compileStep_last_not_amp (os : Oracle) (szHome : Option CStr) (fo fo2 : Int)
    (tok : CStr) (st r : Compiler) (htok : tok ≠ szAmp)
    (hrun : compileStep os szHome fo tok false st = Res.ok r) (herr : r.idMyErrno = 0) :
    compileStep os szHome fo2 tok true st = Res.ok r ∧ r.sPhase ≠ 1 ∧ r.sPhase ≠ 3 := by
  obtain ⟨comC, ph, err, hist⟩ := st
  rcases ph with _ | _ | _ | _ | _ | n
  · by_cases h1 : tok = szLt
    · simp [compileStep, h1] at hrun
      subst hrun
      simp at herr
    · by_cases h2 : tok = szGt
      · simp [compileStep, h1, h2, szGt, szLt] at hrun
        subst hrun
        simp at herr
      · simp only [compileStep, h1, h2, htok, if_false, false_and, Res.ok.injEq] at hrun
        subst hrun
        simp [compileStep, h1, h2, htok]
  · simp only [compileStep] at hrun ⊢
    cases hp : fnPnPrependHomeMaybe szHome tok with
    | fault => simp [hp] at hrun
    | timeout => simp [hp] at hrun
    | ok path =>
      simp only [hp] at hrun ⊢
      split at hrun
      · simp only [Res.ok.injEq] at hrun
        subst hrun
        simp at herr
      · rename_i hneg
        simp only [Res.ok.injEq] at hrun
        subst hrun
        simp [hneg]
  · by_cases h2 : tok = szGt
    · simp [compileStep, h2] at hrun
      subst hrun
      simp at herr
    · simp [compileStep, h2, htok] at hrun
      subst hrun
      simp at herr
  · simp only [compileStep] at hrun ⊢
    cases hp : fnPnPrependHomeMaybe szHome tok with
    | fault => simp [hp] at hrun
    | timeout => simp [hp] at hrun
    | ok path =>
      simp only [hp] at hrun ⊢
      split at hrun
      · simp only [Res.ok.injEq] at hrun
        subst hrun
        simp at herr
      · rename_i hneg
        simp only [Res.ok.injEq] at hrun
        subst hrun
        simp [hneg]
  · simp [compileStep, htok] at hrun
    subst hrun
    simp at herr
  · simp only [compileStep, Res.ok.injEq] at hrun ⊢
    subst hrun
    simp

theorem compileStep_flag_irrelevant (os : Oracle) (szHome : Option CStr) (fo fo2 : Int)
    (tok : CStr) (more : Bool) (st : Compiler) (h : tok ≠ szAmp ∨ more = true) :
    compileStep os szHome fo tok more st = compileStep os szHome fo2 tok more st := by
  obtain ⟨comC, ph, err, hist⟩ := st
  have hc : ¬ (tok = szAmp ∧ more = false) := by
    rintro ⟨h1, h2⟩
    rcases h with h | h
    · exact h h1
    · rw [h2] at h
      cases h
  rcases ph with _ | _ | _ | _ | _ | n
  · simp only [compileStep, hc, if_false]
  · simp only [compileStep]
  · simp only [compileStep, hc, if_false]
  · simp only [compileStep]
  · simp only [compileStep, if_pos h]
  · simp only [compileStep]

theorem compileStep_keeps_foreground (os : Oracle) (szHome : Option CStr) (fo : Int)
    (tok : CStr) (more : Bool) (st r : Compiler) (h : tok ≠ szAmp ∨ more = true)
    (hrun : compileStep os szHome fo tok more st = Res.ok r) :
    r.comC.bForeground = st.comC.bForeground := by
  obtain ⟨comC, ph, err, hist⟩ := st
  have hc : ¬ (tok = szAmp ∧ more = false) := by
    rintro ⟨h1, h2⟩
    rcases h with h | h
    · exact h h1
    · rw [h2] at h
      cases h
  rcases ph with _ | _ | _ | _ | _ | n
  · simp only [compileStep, hc, if_false] at hrun
    split at hrun
    · split at hrun <;> (simp only [Res.ok.injEq] at hrun; subst hrun; rfl)
    · split at hrun
      · split at hrun <;> (simp only [Res.ok.injEq] at hrun; subst hrun; rfl)
      · simp only [Res.ok.injEq] at hrun
        subst hrun
        rfl
  · simp only [compileStep] at hrun
    split at hrun
    · cases hrun
    · cases hrun
    · split at hrun <;> (simp only [Res.ok.injEq] at hrun; subst hrun; rfl)
  · simp only [compileStep, hc, if_false] at hrun
    split at hrun
    · split at hrun <;> (simp only [Res.ok.injEq] at hrun; subst hrun; rfl)
    · simp only [Res.ok.injEq] at hrun
      subst hrun
      rfl
  · simp only [compileStep] at hrun
    split at hrun
    · cases hrun
    · cases hrun
    · split at hrun <;> (simp only [Res.ok.injEq] at hrun; subst hrun; rfl)
  · simp only [compileStep, if_pos h, Res.ok.injEq] at hrun
    subst hrun
    rfl
  · simp only [compileStep, Res.ok.injEq] at hrun
    subst hrun
    rfl

theorem getLast?_cons_cons_ne {α : Type} (x y : α) (l : List α) (z : α)
    (h : (x :: y :: l).getLast? ≠ some z) : (y :: l).getLast? ≠ some z := by
  simpa [List.getLast?_cons_cons] using h

theorem compileLoop_amp_ignored (os : Oracle) (szHome : Option CStr) (fo fo2 : Int)
    (hfo : fo ≠ 0) (t : List CStr) :
    ∀ (idx : Nat) (st r : Compiler), t.getLast? ≠ some szAmp →
      compileLoop os szHome fo2 t idx st = Res.ok r → r.idMyErrno = 0 →
      (t = [] → st.sPhase ≠ 1 ∧ st.sPhase ≠ 3) →
      compileLoop os szHome fo (t ++ [szAmp]) idx st = Res.ok r := by
  induction t with
  | nil =>
    intro idx st r _ hrun _ hph
    simp only [compileLoop, Res.ok.injEq] at hrun
    subst hrun
    obtain ⟨h1, h3⟩ := hph rfl
    simp only [List.nil_append, compileLoop, List.isEmpty_nil, Bool.not_true]
    split
    · rw [compileStep_amp_foreground_only os szHome fo hfo st h1 h3]
    · rfl
  | cons tok rest ih =>
    intro idx st r hlast hrun herr _
    simp only [List.cons_append, compileLoop, List.append_eq] at hrun ⊢
    split at hrun
    · rename_i hgo
      rw [if_pos hgo]
      cases rest with
      | nil =>
        have htok : tok ≠ szAmp := by
          intro h
          apply hlast
          simp [h]
        simp only [List.isEmpty_nil, Bool.not_true] at hrun
        cases hs : compileStep os szHome fo2 tok false st with
        | fault => simp [hs] at hrun
        | timeout => simp [hs] at hrun
        | ok st2 =>
          simp only [hs, compileLoop, Res.ok.injEq] at hrun
          subst hrun
          obtain ⟨e, p1, p3⟩ := compileStep_last_not_amp os szHome fo2 fo tok st st2 htok hs herr
          simp only [List.nil_append, List.isEmpty_cons, Bool.not_false, e]
          simp only [List.nil_append] at ih
          exact ih (idx + 1) st2 st2 (by simp) rfl herr (fun _ => ⟨p1, p3⟩)
      | cons y rest =>
        simp only [List.isEmpty_cons, Bool.not_false, List.cons_append] at hrun ⊢
        rw [compileStep_flag_irrelevant os szHome fo fo2 tok true st (Or.inr rfl)]
        cases hs : compileStep os szHome fo2 tok true st with
        | fault => simp [hs] at hrun
        | timeout => simp [hs] at hrun
        | ok st2 =>
          simp only [hs] at hrun ⊢
          exact ih (idx + 1) st2 r (getLast?_cons_cons_ne tok y rest szAmp hlast) hrun herr
            (fun h => by cases h)
    · rename_i hgo
      rw [if_neg hgo]
      exact hrun

theorem compileLoop_keeps_foreground (os : Oracle) (szHome : Option CStr) (fo : Int)
    (t : List CStr) :
    ∀ (idx : Nat) (st r : Compiler), t.getLast? ≠ some szAmp →
      compileLoop os szHome fo t idx st = Res.ok r →
      r.comC.bForeground = st.comC.bForeground := by
  induction t with
  | nil =>
    intro idx st r _ hrun
    simp only [compileLoop, Res.ok.injEq] at hrun
    subst hrun
    rfl
  | cons tok rest ih =>
    intro idx st r hlast hrun
    simp only [compileLoop] at hrun
    split at hrun
    · cases hs : compileStep os szHome fo tok (!rest.isEmpty) st with
      | fault => simp [hs] at hrun
      | timeout => simp [hs] at hrun
      | ok st2 =>
        simp only [hs] at hrun
        have hcond : tok ≠ szAmp ∨ (!rest.isEmpty) = true := by
          cases rest with
          | nil =>
            left
            intro h
            apply hlast
            simp [h]
          | cons y rest =>
            right
            rfl
        have hlast2 : rest.getLast? ≠ some szAmp := by
          cases rest with
          | nil => simp
          | cons y rest => exact getLast?_cons_cons_ne tok y rest szAmp hlast
        rw [ih (idx + 1) st2 r hlast2 hrun]
        exact compileStep_keeps_foreground os szHome fo tok _ st st2 hcond hs
    · simp only [Res.ok.injEq] at hrun
      subst hrun
      rfl

/-- C4. In foreground-only mode a trailing `&` has no effect: when the last token of `t` is not
`&` and `fnStCommandCreate` on `t` returns 0 (under any mode flag), then on `t ++ ["&"]` with the
mode flag set it returns the very same result: return value 0, the same argument vector and
descriptors, foreground flag 1, and the same history, so no call beyond those made for `t`
(in particular no `open` of the null device) takes place. -/
theorem fnStCommandCreate_amp_foreground_only (os : Oracle) (szHome : Option CStr) (tr : Trace)
    (t : List CStr) (bForegroundOnly fo2 : Int) (c : Compiled)
    (hfo : bForegroundOnly ≠ 0) (hlast : t.getLast? ≠ some szAmp)
    (hrun : fnStCommandCreate os szHome tr t fo2 = Res.ok c) (herr : c.idMyErrno = 0) :
    fnStCommandCreate os szHome tr (t ++ [szAmp]) bForegroundOnly = Res.ok c ∧
    c.comC.bForeground = 1 := by
  unfold fnStCommandCreate at hrun ⊢
  cases hl : compileLoop os szHome fo2 t 0
      { comC := { arrsz_args := [], fdIn := STDIN_FILENO, fdOut := STDOUT_FILENO,
                  bForeground := 1 },
        sPhase := 0, idMyErrno := 0, hist := tr } with
  | fault => simp [hl] at hrun
  | timeout => simp [hl] at hrun
  | ok r =>
    simp only [hl, Res.ok.injEq] at hrun
    subst hrun
    simp only at herr
    constructor
    · rw [compileLoop_amp_ignored os szHome bForegroundOnly fo2 hfo t 0 _ r hlast hl herr
        (fun _ => ⟨by simp, by simp⟩)]
    · exact compileLoop_keeps_foreground os szHome fo2 t 0 _ r hlast hl

/-- Witness for C4: `cmd < in > out` compiled with flag 0, then with `&` appended and flag 1. -/
theorem fnStCommandCreate_amp_foreground_only_witness :
    fnStCommandCreate demoOracle none []
        (["cmd".toList, "<".toList, "in".toList, ">".toList, "out".toList] ++ [szAmp]) 1 =
      Res.ok {
        idMyErrno := 0,
        comC := { arrsz_args := ["cmd".toList], fdIn := 3, fdOut := 4, bForeground := 1 },
        hist := [SysEvent.sysOpen "in".toList OpenFlags.O_RDONLY 3,
                 SysEvent.sysOpen "out".toList OpenFlags.O_CREAT_TRUNC_WRONLY 4] } ∧
    (1 : Int) = 1 :=
  fnStCommandCreate_amp_foreground_only demoOracle none []
    ["cmd".toList, "<".toList, "in".toList, ">".toList, "out".toList] 1 0
    { idMyErrno := 0,
      comC := { arrsz_args := ["cmd".toList], fdIn := 3, fdOut := 4, bForeground := 1 },
      hist := [SysEvent.sysOpen "in".toList OpenFlags.O_RDONLY 3,
               SysEvent.sysOpen "out".toList OpenFlags.O_CREAT_TRUNC_WRONLY 4] }
    (by decide) (by decide) (by decide) rfl

/-! ## Unexpected tokens after a redirection -/

/-- C6. Let `a` be literal arguments and `f`, `g` filenames whose paths always open. After the
output filename (phase 4) every non-empty remainder `r` other than the single token `&` makes
`fnStCommandCreate` return error kind 3, whether phase 4 was reached from phase 0
(`a ++ [">", g] ++ r`) or through an input redirection (`a ++ ["<", f, ">", g] ++ r`); after the
input filename (phase 2) a next token `x` other than `>` and other than a final `&` returns
error kind 3 as well (`a ++ ["<", f] ++ x :: r2`). -/
theorem fnStCommandCreate_unexpected_token (os : Oracle) (szHome : Option CStr) (tr : Trace)
    (a : List CStr) (f g pf pg : CStr) (r : List CStr) (x : CStr) (r2 : List CStr)
    (bForegroundOnly : Int)
    (hlit : ∀ y ∈ a, IsLiteral y)
    (hpf : fnPnPrependHomeMaybe szHome f = Res.ok pf)
    (hpg : fnPnPrependHomeMaybe szHome g = Res.ok pg)
    (hf : ∀ h, 0 ≤ os.openRet h pf OpenFlags.O_RDONLY)
    (hg : ∀ h, 0 ≤ os.openRet h pg OpenFlags.O_CREAT_TRUNC_WRONLY)
    (hr : r ≠ []) (hr2 : r ≠ [szAmp])
    (hx : x ≠ szGt) (hx2 : ¬ (x = szAmp ∧ r2 = []))
    (hlen1 : (a ++ [szLt, f, szGt, g] ++ r).length ≤ 511)
    (hlen2 : (a ++ [szLt, f] ++ x :: r2).length ≤ 511) :
    (∃ c, fnStCommandCreate os szHome tr (a ++ [szGt, g] ++ r) bForegroundOnly = Res.ok c ∧
      c.idMyErrno = 3) ∧
    (∃ c, fnStCommandCreate os szHome tr (a ++ [szLt, f, szGt, g] ++ r) bForegroundOnly
        = Res.ok c ∧ c.idMyErrno = 3) ∧
    (∃ c, fnStCommandCreate os szHome tr (a ++ [szLt, f] ++ x :: r2) bForegroundOnly
        = Res.ok c ∧ c.idMyErrno = 3) := by
  simp only [List.length_append, List.length_cons, List.length_nil] at hlen1 hlen2
  cases r with
  | nil => exact absurd rfl hr
  | cons y r =>
  simp only [List.length_cons] at hlen1
  have i1 : a.length < 511 := by omega
  have i2 : a.length + 1 < 511 := by omega
  have i3 : a.length + 1 + 1 < 511 := by omega
  have i4 : a.length + 1 + 1 + 1 < 511 := by omega
  have i5 : a.length + 1 + 1 + 1 + 1 < 511 := by omega
  have hcond : y ≠ szAmp ∨ (!r.isEmpty) = true := by
    by_cases hy : y = szAmp
    · right
      cases r with
      | nil => exact absurd (by rw [hy]) hr2
      | cons z r => rfl
    · left
      exact hy
  have hcond2 : ¬ (x = szAmp ∧ (!r2.isEmpty) = false) := by
    rintro ⟨h1, h2⟩
    apply hx2
    refine ⟨h1, ?_⟩
    cases r2 with
    | nil => rfl
    | cons z r2 => simp at h2
  have nf : ∀ h, ¬ (sysOpen os h pf OpenFlags.O_RDONLY).1 < 0 := fun h => by
    have := hf h
    simp only [sysOpen]
    omega
  have ng : ∀ h, ¬ (sysOpen os h pg OpenFlags.O_CREAT_TRUNC_WRONLY).1 < 0 := fun h => by
    have := hg h
    simp only [sysOpen]
    omega
  refine ⟨?_, ?_, ?_⟩
  · unfold fnStCommandCreate
    rw [List.append_assoc, compileLoop_literals os szHome bForegroundOnly a _ 0 _ hlit rfl rfl
      (by omega)]
    simp only [List.cons_append, List.nil_append, compileLoop, compileStep, i1, i2, i3,
      Nat.zero_add, hpg, ng, szLt, szGt, if_pos hcond]
    simp [compileLoop_stopped]
  · unfold fnStCommandCreate
    rw [List.append_assoc, compileLoop_literals os szHome bForegroundOnly a _ 0 _ hlit rfl rfl
      (by omega)]
    simp only [List.cons_append, List.nil_append, compileLoop, compileStep, i1, i2, i3, i4, i5,
      Nat.zero_add, hpf, hpg, nf, ng, szLt, szGt, if_pos hcond]
    simp [compileLoop_stopped]
  · unfold fnStCommandCreate
    rw [List.append_assoc, compileLoop_literals os szHome bForegroundOnly a _ 0 _ hlit rfl rfl
      (by omega)]
    simp only [List.cons_append, List.nil_append, compileLoop, compileStep, i1, i2, i3,
      Nat.zero_add, hpf, nf, szLt, if_neg hx, if_neg hcond2]
    simp [compileLoop_stopped]

/-- Witness for C6: `cmd > out < in`, `cmd < in > out < in` and `cmd < in x`. -/
theorem fnStCommandCreate_unexpected_token_witness :
    (∃ c, fnStCommandCreate demoOracle none []
        (["cmd".toList] ++ [szGt, "out".toList] ++ [szLt, "in".toList]) 0 = Res.ok c ∧
      c.idMyErrno = 3) ∧
    (∃ c, fnStCommandCreate demoOracle none []
        (["cmd".toList] ++ [szLt, "in".toList, szGt, "out".toList] ++ [szLt, "in".toList]) 0
        = Res.ok c ∧ c.idMyErrno = 3) ∧
    (∃ c, fnStCommandCreate demoOracle none []
        (["cmd".toList] ++ [szLt, "in".toList] ++ "x".toList :: []) 0
        = Res.ok c ∧ c.idMyErrno = 3) :=
  fnStCommandCreate_unexpected_token demoOracle none [] ["cmd".toList]
    "in".toList "out".toList "in".toList "out".toList [szLt, "in".toList] "x".toList [] 0
    (by decide) (by decide) (by decide)
    (fun h => by simp only [demoOracle]; rw [if_neg (by decide)]; omega)
    (fun h => by simp only [demoOracle]; rw [if_neg (by decide)]; omega)
    (by decide) (by decide) (by decide) (by decide) (by decide) (by decide)

/-! ## Descriptors of a background command -/

theorem redirOpened_mono (szHome : Option CStr) (t : List CStr) (fl : OpenFlags)
    (ev ev2 : Trace) (fd : Int) (h : RedirOpened szHome t fl ev fd) :
    RedirOpened szHome t fl (ev ++ ev2) fd := by
  obtain ⟨tok, path, h1, h2, h3⟩ := h
  exact ⟨tok, path, h1, h2, List.mem_append_left _ h3⟩

theorem redirOpened_default_mono (szHome : Option CStr) (t : List CStr) (fl : OpenFlags)
    (ev ev2 : Trace) (fd std : Int) (h : fd = std ∨ RedirOpened szHome t fl ev fd) :
    fd = std ∨ RedirOpened szHome t fl (ev ++ ev2) fd :=
  h.imp id (redirOpened_mono szHome t fl ev ev2 fd)

theorem compileStep_descriptors (os : Oracle) (szHome : Option CStr) (fo : Int)
    (hos : ∀ h p fl, 0 ≤ os.openRet h p fl → 2 ≤ os.openRet h p fl)
    (t : List CStr) (tr : Trace) (tok : CStr) (more : Bool) (st r : Compiler)
    (htok : tok ∈ t) (hinv : ForegroundInv szHome t tr st)
    (hrun : compileStep os szHome fo tok more st = Res.ok r) (herr : r.idMyErrno = 0) :
    ForegroundInv szHome t tr r ∨ (more = false ∧ BackgroundPost szHome t tr r) := by
  have hne0 : ∀ h p fl, os.openRet h p fl ≠ STDIN_FILENO := fun h p fl e => by
    have := hos h p fl
    simp only [STDIN_FILENO] at e
    omega
  have hne1 : ∀ h p fl, os.openRet h p fl ≠ STDOUT_FILENO := fun h p fl e => by
    have := hos h p fl
    simp only [STDOUT_FILENO] at e
    omega
  obtain ⟨comC, ph, err, hist⟩ := st
  obtain ⟨hfg, ev, hev, hin, hout⟩ := hinv
  simp only at hfg hev hin hout
  subst hev
  -- the step taken when the command is put in the background from phase 2 or 4
  rcases ph with _ | _ | _ | _ | _ | n
  · -- phase 0
    simp only [compileStep] at hrun
    split at hrun
    · split at hrun
      · simp only [Res.ok.injEq] at hrun
        subst hrun
        exact Or.inl ⟨hfg, ev, rfl, hin, hout⟩
      · simp only [Res.ok.injEq] at hrun
        subst hrun
        simp at herr
    · split at hrun
      · split at hrun
        · simp only [Res.ok.injEq] at hrun
          subst hrun
          exact Or.inl ⟨hfg, ev, rfl, hin, hout⟩
        · simp only [Res.ok.injEq] at hrun
          subst hrun
          simp at herr
      · split at hrun
        · rename_i hamp
          split at hrun
          · simp only [Res.ok.injEq] at hrun
            subst hrun
            refine Or.inr ⟨hamp.2, hne0 _ _ _, hne1 _ _ _, ?_⟩
            refine ⟨ev ++ [SysEvent.sysOpen szDevNull OpenFlags.O_RDONLY
                (os.openRet (tr ++ ev) szDevNull OpenFlags.O_RDONLY),
              SysEvent.sysOpen szDevNull OpenFlags.O_WRONLY
                (sysOpen os (sysOpen os (tr ++ ev) szDevNull OpenFlags.O_RDONLY).2 szDevNull
                  OpenFlags.O_WRONLY).1], ?_, Or.inr ?_, Or.inr ?_⟩
            · simp [sysOpen]
            · simp [NullOpened, sysOpen]
            · simp [NullOpened, sysOpen]
          · simp only [Res.ok.injEq] at hrun
            subst hrun
            exact Or.inl ⟨hfg, ev, rfl, hin, hout⟩
        · simp only [Res.ok.injEq] at hrun
          subst hrun
          exact Or.inl ⟨hfg, ev, rfl, hin, hout⟩
  · -- phase 1
    simp only [compileStep] at hrun
    split at hrun
    · cases hrun
    · cases hrun
    · rename_i path hp
      split at hrun
      · simp only [Res.ok.injEq] at hrun
        subst hrun
        simp at herr
      · simp only [Res.ok.injEq] at hrun
        subst hrun
        refine Or.inl ⟨hfg, ev ++ [SysEvent.sysOpen path OpenFlags.O_RDONLY
          (os.openRet (tr ++ ev) path OpenFlags.O_RDONLY)], ?_, Or.inr ?_, ?_⟩
        · simp [sysOpen]
        · exact ⟨tok, path, htok, hp, by simp [sysOpen]⟩
        · exact redirOpened_default_mono szHome t _ ev _ _ _ hout
  · -- phase 2
    simp only [compileStep] at hrun
    split at hrun
    · split at hrun
      · simp only [Res.ok.injEq] at hrun
        subst hrun
        exact Or.inl ⟨hfg, ev, rfl, hin, hout⟩
      · simp only [Res.ok.injEq] at hrun
        subst hrun
        simp at herr
    · split at hrun
      · rename_i hamp
        split at hrun
        · simp only [Res.ok.injEq] at hrun
          subst hrun
          by_cases hstd : comC.fdIn = STDIN_FILENO
          · refine Or.inr ⟨hamp.2, ?_, ?_, ?_⟩
            · simp only [hstd, if_true]
              exact hne0 _ _ _
            · exact hne1 _ _ _
            · refine ⟨ev ++ [SysEvent.sysOpen szDevNull OpenFlags.O_RDONLY
                  (os.openRet (tr ++ ev) szDevNull OpenFlags.O_RDONLY),
                SysEvent.sysOpen szDevNull OpenFlags.O_WRONLY
                  (sysOpen os (sysOpen os (tr ++ ev) szDevNull OpenFlags.O_RDONLY).2 szDevNull
                    OpenFlags.O_WRONLY).1], ?_, Or.inr ?_, Or.inr ?_⟩
              · simp [sysOpen, hstd]
              · simp [NullOpened, sysOpen, hstd]
              · simp [NullOpened, sysOpen, hstd]
          · refine Or.inr ⟨hamp.2, ?_, ?_, ?_⟩
            · simp only [hstd, if_false]
              exact hstd
            · exact hne1 _ _ _
            · refine ⟨ev ++ [SysEvent.sysOpen szDevNull OpenFlags.O_WRONLY
                  (os.openRet (tr ++ ev) szDevNull OpenFlags.O_WRONLY)], ?_, Or.inl ?_, Or.inr ?_⟩
              · simp [sysOpen, hstd]
              · simp only [hstd, if_false]
                exact redirOpened_mono szHome t _ ev _ _ (hin.resolve_left hstd)
              · simp [NullOpened, sysOpen, hstd]
        · simp only [Res.ok.injEq] at hrun
          subst hrun
          exact Or.inl ⟨hfg, ev, rfl, hin, hout⟩
      · simp only [Res.ok.injEq] at hrun
        subst hrun
        simp at herr
  · -- phase 3
    simp only [compileStep] at hrun
    split at hrun
    · cases hrun
    · cases hrun
    · rename_i path hp
      split at hrun
      · simp only [Res.ok.injEq] at hrun
        subst hrun
        simp at herr
      · simp only [Res.ok.injEq] at hrun
        subst hrun
        refine Or.inl ⟨hfg, ev ++ [SysEvent.sysOpen path OpenFlags.O_CREAT_TRUNC_WRONLY
          (os.openRet (tr ++ ev) path OpenFlags.O_CREAT_TRUNC_WRONLY)], ?_, ?_, Or.inr ?_⟩
        · simp [sysOpen]
        · exact redirOpened_default_mono szHome t _ ev _ _ _ hin
        · exact ⟨tok, path, htok, hp, by simp [sysOpen]⟩
  · -- phase 4
    simp only [compileStep] at hrun
    split at hrun
    · simp only [Res.ok.injEq] at hrun
      subst hrun
      simp at herr
    · rename_i hamp
      have hmore : more = false := by
        cases more with
        | false => rfl
        | true => exact absurd (Or.inr rfl) hamp
      split at hrun
      · simp only [Res.ok.injEq] at hrun
        subst hrun
        by_cases hi : comC.fdIn = STDIN_FILENO
        · by_cases ho : comC.fdOut = STDOUT_FILENO
          · refine Or.inr ⟨hmore, ?_, ?_, ?_⟩
            · simp only [hi, if_true]
              exact hne0 _ _ _
            · simp only [ho, if_true]
              exact hne1 _ _ _
            · refine ⟨ev ++ [SysEvent.sysOpen szDevNull OpenFlags.O_RDONLY
                  (os.openRet (tr ++ ev) szDevNull OpenFlags.O_RDONLY),
                SysEvent.sysOpen szDevNull OpenFlags.O_WRONLY
                  (sysOpen os (sysOpen os (tr ++ ev) szDevNull OpenFlags.O_RDONLY).2 szDevNull
                    OpenFlags.O_WRONLY).1], ?_, Or.inr ?_, Or.inr ?_⟩
              · simp [sysOpen, hi, ho]
              · simp [NullOpened, sysOpen, hi]
              · simp [NullOpened, sysOpen, hi, ho]
          · refine Or.inr ⟨hmore, ?_, ?_, ?_⟩
            · simp only [hi, if_true]
              exact hne0 _ _ _
            · simp only [ho, if_false]
              exact ho
            · refine ⟨ev ++ [SysEvent.sysOpen szDevNull OpenFlags.O_RDONLY
                  (os.openRet (tr ++ ev) szDevNull OpenFlags.O_RDONLY)], ?_, Or.inr ?_, Or.inl ?_⟩
              · simp [sysOpen, hi, ho]
              · simp [NullOpened, sysOpen, hi]
              · simp only [ho, if_false]
                exact redirOpened_mono szHome t _ ev _ _ (hout.resolve_left ho)
        · by_cases ho : comC.fdOut = STDOUT_FILENO
          · refine Or.inr ⟨hmore, ?_, ?_, ?_⟩
            · simp only [hi, if_false]
              exact hi
            · simp only [ho, if_true]
              exact hne1 _ _ _
            · refine ⟨ev ++ [SysEvent.sysOpen szDevNull OpenFlags.O_WRONLY
                  (os.openRet (tr ++ ev) szDevNull OpenFlags.O_WRONLY)], ?_, Or.inl ?_, Or.inr ?_⟩
              · simp [sysOpen, hi, ho]
              · simp only [hi, if_false]
                exact redirOpened_mono szHome t _ ev _ _ (hin.resolve_left hi)
              · simp [NullOpened, sysOpen, hi, ho]
          · refine Or.inr ⟨hmore, ?_, ?_, ?_⟩
            · simp only [hi, if_false]
              exact hi
            · simp only [ho, if_false]
              exact ho
            · refine ⟨ev, ?_, Or.inl ?_, Or.inl ?_⟩
              · simp [hi, ho]
              · simp only [hi, if_false]
                exact hin.resolve_left hi
              · simp only [ho, if_false]
                exact hout.resolve_left ho
      · simp only [Res.ok.injEq] at hrun
        subst hrun
        exact Or.inl ⟨hfg, ev, rfl, hin, hout⟩
  · simp only [compileStep, Res.ok.injEq] at hrun
    subst hrun
    exact Or.inl ⟨hfg, ev, rfl, hin, hout⟩

theorem compileLoop_descriptors (os : Oracle) (szHome : Option CStr) (fo : Int)
    (hos : ∀ h p fl, 0 ≤ os.openRet h p fl → 2 ≤ os.openRet h p fl)
    (t : List CStr) (tr : Trace) (l : List CStr) :
    ∀ (idx : Nat) (st r : Compiler), (∀ x ∈ l, x ∈ t) → ForegroundInv szHome t tr st →
      compileLoop os szHome fo l idx st = Res.ok r → r.idMyErrno = 0 →
      ForegroundInv szHome t tr r ∨ BackgroundPost szHome t tr r := by
  induction l with
  | nil =>
    intro idx st r _ hinv hrun _
    simp only [compileLoop, Res.ok.injEq] at hrun
    subst hrun
    exact Or.inl hinv
  | cons tok rest ih =>
    intro idx st r hmem hinv hrun herr
    simp only [compileLoop] at hrun
    split at hrun
    · cases hs : compileStep os szHome fo tok (!rest.isEmpty) st with
      | fault => simp [hs] at hrun
      | timeout => simp [hs] at hrun
      | ok st2 =>
        simp only [hs] at hrun
        by_cases he : st2.idMyErrno = 0
        · rcases compileStep_descriptors os szHome fo hos t tr tok _ st st2
            (hmem tok (List.mem_cons_self _ _)) hinv hs he with h | ⟨hlast, h⟩
          · exact ih (idx + 1) st2 r (fun x hx => hmem x (List.mem_cons_of_mem _ hx)) h hrun herr
          · cases rest with
            | nil =>
              simp only [compileLoop, Res.ok.injEq] at hrun
              subst hrun
              exact Or.inr h
            | cons y rest => simp at hlast
        · rw [compileLoop_stopped os szHome fo rest (idx + 1) st2 he] at hrun
          simp only [Res.ok.injEq] at hrun
          subst hrun
          exact absurd herr he
    · simp only [Res.ok.injEq] at hrun
      subst hrun
      exact Or.inl hinv

/-- Provenance of the descriptors of a background command, assuming a successful `open` never
returns descriptor 0 or 1: whenever `fnStCommandCreate` returns 0 with the foreground flag 0,
neither descriptor is a standard one, and each is the value returned by an `open` call made
during this call, either of the path of a token of the line or of the null device. The value
returned for the null device is taken as it is, also when that `open` failed. -/
theorem fnStCommandCreate_background_descriptors (os : Oracle) (szHome : Option CStr)
    (tr : Trace) (t : List CStr) (bForegroundOnly : Int) (c : Compiled)
    (hos : ∀ h p fl, 0 ≤ os.openRet h p fl → 2 ≤ os.openRet h p fl)
    (hrun : fnStCommandCreate os szHome tr t bForegroundOnly = Res.ok c)
    (herr : c.idMyErrno = 0) (hbg : c.comC.bForeground = 0) :
    c.comC.fdIn ≠ STDIN_FILENO ∧ c.comC.fdOut ≠ STDOUT_FILENO ∧
    ∃ ev, c.hist = tr ++ ev ∧
      (RedirOpened szHome t OpenFlags.O_RDONLY ev c.comC.fdIn ∨
        NullOpened OpenFlags.O_RDONLY ev c.comC.fdIn) ∧
      (RedirOpened szHome t OpenFlags.O_CREAT_TRUNC_WRONLY ev c.comC.fdOut ∨
        NullOpened OpenFlags.O_WRONLY ev c.comC.fdOut) := by
  unfold fnStCommandCreate at hrun
  cases hl : compileLoop os szHome bForegroundOnly t 0
      { comC := { arrsz_args := [], fdIn := STDIN_FILENO, fdOut := STDOUT_FILENO,
                  bForeground := 1 },
        sPhase := 0, idMyErrno := 0, hist := tr } with
  | fault => simp [hl] at hrun
  | timeout => simp [hl] at hrun
  | ok r =>
    simp only [hl, Res.ok.injEq] at hrun
    subst hrun
    simp only at herr hbg ⊢
    have hinit : ForegroundInv szHome t tr
        { comC := { arrsz_args := [], fdIn := STDIN_FILENO, fdOut := STDOUT_FILENO,
                    bForeground := 1 },
          sPhase := 0, idMyErrno := 0, hist := tr } :=
      ⟨rfl, [], by simp, Or.inl rfl, Or.inl rfl⟩
    rcases compileLoop_descriptors os szHome bForegroundOnly hos t tr t 0 _ r
      (fun x hx => hx) hinit hl herr with h | h
    · obtain ⟨hfg, _⟩ := h
      rw [hbg] at hfg
      cases hfg
    · exact h

/-- C7 (the code departs from the claim). On `cmd &` with mode flag 0, when the null device
cannot be opened (both `open` calls return -1), `fnStCommandCreate` still returns 0 with the
foreground flag 0, and both descriptors of the command are -1: neither is a descriptor opened on
the null device. On `cmd < in &` the output descriptor is -1 in the same way. The results of the
`open` calls on the null device are never tested, unlike those on the filenames. -/
theorem fnStCommandCreate_background_null_device_failure :
    fnStCommandCreate demoNoNullOracle none [] ["cmd".toList, "&".toList] 0 =
      Res.ok {
        idMyErrno := 0,
        comC := { arrsz_args := ["cmd".toList], fdIn := -1, fdOut := -1, bForeground := 0 },
        hist := [SysEvent.sysOpen szDevNull OpenFlags.O_RDONLY (-1),
                 SysEvent.sysOpen szDevNull OpenFlags.O_WRONLY (-1)] } ∧
    fnStCommandCreate demoNoNullOracle none []
        ["cmd".toList, "<".toList, "in".toList, "&".toList] 0 =
      Res.ok {
        idMyErrno := 0,
        comC := { arrsz_args := ["cmd".toList], fdIn := 3, fdOut := -1, bForeground := 0 },
        hist := [SysEvent.sysOpen "in".toList OpenFlags.O_RDONLY 3,
                 SysEvent.sysOpen szDevNull OpenFlags.O_WRONLY (-1)] } ∧
    (∀ h p fl, 0 ≤ demoNoNullOracle.openRet h p fl → 2 ≤ demoNoNullOracle.openRet h p fl) := by
  refine ⟨by decide, by decide, ?_⟩
  intro h p fl
  simp only [demoNoNullOracle, demoOracle]
  split
  · intro hneg
    omega
  · intro _
    omega

/-! ## One poll pass over the job table -/

theorem fnStProcessListPopMatching_first (pre : List stProcessList) (n : stProcessList)
    (rest : List stProcessList) (pid : Int) (hpre : ∀ m ∈ pre, m.pidSelf ≠ pid)
    (hn : n.pidSelf = pid) :
    fnStProcessListPopMatching (pre ++ n :: rest) pid = (some (pre.length, n), pre ++ rest) := by
  induction pre with
  | nil => simp [fnStProcessListPopMatching, hn]
  | cons m pre ih =>
    have hm : m.pidSelf ≠ pid := hpre m (List.mem_cons_self _ _)
    have := ih (fun x hx => hpre x (List.mem_cons_of_mem _ hx))
    simp [fnStProcessListPopMatching, hm, this]

theorem pollLoop_distinct (os : Oracle) (ans : Int → Int × Int) (post : List stProcessList) :
    ∀ (pre : List stProcessList) (fuel : Nat) (tr : Trace),
      (∀ h, ∀ n ∈ post, os.waitRet h n.pidSelf true = ans n.pidSelf) →
      (∀ n ∈ post, (ans n.pidSelf).1 = 0 ∨ (ans n.pidSelf).1 = n.pidSelf) →
      ((pre ++ post).map (fun n => n.pidSelf)).Nodup →
      post.length ≤ fuel →
      pollLoop os fuel (pre ++ post) pre.length tr =
        Res.ok (pre ++ post.filter (fun n => (ans n.pidSelf).1 = 0),
          tr ++ post.flatMap (fun n => pollEvents (ans n.pidSelf) n)) := by
  induction post with
  | nil =>
    intro pre fuel tr _ _ _ _
    unfold pollLoop
    simp
  | cons n rest ih =>
    intro pre fuel tr hos hans hnd hfuel
    have hget : (pre ++ n :: rest)[pre.length]? = some n := by
      rw [List.getElem?_append_right (le_refl _)]
      simp
    cases fuel with
    | zero => simp at hfuel
    | succ fuel =>
      simp only [List.length_cons, Nat.add_le_add_iff_right] at hfuel
      unfold pollLoop
      simp only [hget, hos tr n (List.mem_cons_self _ _)]
      have hos2 : ∀ h, ∀ m ∈ rest, os.waitRet h m.pidSelf true = ans m.pidSelf :=
        fun h m hm => hos h m (List.mem_cons_of_mem _ hm)
      have hans2 : ∀ m ∈ rest, (ans m.pidSelf).1 = 0 ∨ (ans m.pidSelf).1 = m.pidSelf :=
        fun m hm => hans m (List.mem_cons_of_mem _ hm)
      by_cases hz : (ans n.pidSelf).1 = 0
      · have hnd2 : (((pre ++ [n]) ++ rest).map (fun n => n.pidSelf)).Nodup := by
          simpa using hnd
        have := ih (pre ++ [n]) fuel
          (tr ++ [SysEvent.sysWaitpid n.pidSelf true (ans n.pidSelf).1 (ans n.pidSelf).2])
          hos2 hans2 hnd2 hfuel
        simp only [List.append_assoc, List.singleton_append, List.length_append,
          List.length_singleton] at this
        simp only [hz, ne_eq, not_true_eq_false, if_false]
        rw [hz] at this
        rw [this]
        simp [List.filter_cons, hz, pollEvents]
      · have hpid : (ans n.pidSelf).1 = n.pidSelf :=
          (hans n (List.mem_cons_self _ _)).resolve_left hz
        have hpre : ∀ m ∈ pre, m.pidSelf ≠ (ans n.pidSelf).1 := by
          intro m hm e
          rw [hpid] at e
          rw [List.map_append, List.nodup_append] at hnd
          exact hnd.2.2 (List.mem_map_of_mem _ hm)
            (by rw [e]; exact List.mem_map_of_mem _ (List.mem_cons_self _ _))
        have hnd2 : ((pre ++ rest).map (fun n => n.pidSelf)).Nodup := by
          simp only [List.map_append, List.map_cons] at hnd ⊢
          exact hnd.sublist (List.Sublist.append_left (List.sublist_cons_self _ _) _)
        simp only [ne_eq, hz, not_false_eq_true, if_true]
        rw [fnStProcessListPopMatching_first pre n rest _ hpre hpid.symm]
        simp only [if_true]
        rw [ih pre fuel _ hos2 hans2 hnd2 hfuel]
        simp [List.filter_cons, hz, pollEvents]

theorem pollLoop_all_running (os : Oracle) (post : List stProcessList) :
    ∀ (pre : List stProcessList) (fuel : Nat) (tr : Trace),
      (∀ h, ∀ n ∈ post, (os.waitRet h n.pidSelf true).1 = 0) →
      post.length ≤ fuel →
      ∃ ws, pollLoop os fuel (pre ++ post) pre.length tr = Res.ok (pre ++ post, tr ++ ws) ∧
        ∀ e ∈ ws, ∃ pid status, e = SysEvent.sysWaitpid pid true 0 status := by
  induction post with
  | nil =>
    intro pre fuel tr _ _
    refine ⟨[], ?_, by simp⟩
    unfold pollLoop
    simp
  | cons n rest ih =>
    intro pre fuel tr hos hfuel
    have hget : (pre ++ n :: rest)[pre.length]? = some n := by
      rw [List.getElem?_append_right (le_refl _)]
      simp
    cases fuel with
    | zero => simp at hfuel
    | succ fuel =>
      simp only [List.length_cons, Nat.add_le_add_iff_right] at hfuel
      have hz := hos tr n (List.mem_cons_self _ _)
      obtain ⟨ws, hrun, hws⟩ := ih (pre ++ [n]) fuel
        (tr ++ [SysEvent.sysWaitpid n.pidSelf true 0 (os.waitRet tr n.pidSelf true).2])
        (fun h m hm => hos h m (List.mem_cons_of_mem _ hm)) hfuel
      simp only [List.append_assoc, List.singleton_append, List.length_append,
        List.length_singleton] at hrun
      refine ⟨SysEvent.sysWaitpid n.pidSelf true 0 (os.waitRet tr n.pidSelf true).2 :: ws,
        ?_, ?_⟩
      · unfold pollLoop
        simp only [hget, hz, ne_eq, not_true_eq_false, if_false]
        exact hrun
      · intro e he
        rcases List.mem_cons.mp he with h | h
        · exact ⟨_, _, h⟩
        · exact hws e h

theorem pollEvents_eq_expected (ans : Int × Int) (n : stProcessList)
    (h : ans.1 = 0 ∨ ans.1 = n.pidSelf) : pollEvents ans n = expectedPollActions ans n := by
  by_cases hz : ans.1 = 0
  · simp [pollEvents, expectedPollActions, hz]
  · have hp := h.resolve_left hz
    have hn : ¬ n.pidSelf = 0 := by
      rw [← hp]
      exact hz
    by_cases hi : n.fdIn = 0 <;> by_cases ho : n.fdOut = 1 <;>
      by_cases he : WIFEXITED ans.2 = true <;>
      simp [pollEvents, expectedPollActions, reapReport, doneReport, hp, hn, hi, ho, he,
        STDIN_FILENO, STDOUT_FILENO]

theorem flatMap_pollEvents_eq_expected (ans : Int → Int × Int) (pl : List stProcessList)
    (h : ∀ n ∈ pl, (ans n.pidSelf).1 = 0 ∨ (ans n.pidSelf).1 = n.pidSelf) :
    pl.flatMap (fun n => pollEvents (ans n.pidSelf) n) =
      pl.flatMap (fun n => expectedPollActions (ans n.pidSelf) n) := by
  induction pl with
  | nil => rfl
  | cons n rest ih =>
    simp only [List.flatMap_cons]
    rw [pollEvents_eq_expected _ n (h n (List.mem_cons_self _ _)),
      ih (fun m hm => h m (List.mem_cons_of_mem _ hm))]

theorem reports_append (a b : Trace) : reports (a ++ b) = reports a ++ reports b := by
  simp [reports]

theorem reports_expectedPollActions (ans : Int × Int) (n : stProcessList) :
    reports (expectedPollActions ans n) =
      if ans.1 = 0 then [] else doneReport n.pidSelf ans.2 := by
  by_cases hz : ans.1 = 0
  · simp [expectedPollActions, hz, reports]
  · by_cases hi : n.fdIn = 0 <;> by_cases ho : n.fdOut = 1 <;>
      by_cases he : WIFEXITED ans.2 = true <;>
      simp [expectedPollActions, doneReport, hz, hi, ho, he, reports]

theorem reports_flatMap_expected (ans : Int → Int × Int) (pl : List stProcessList) :
    reports (pl.flatMap (fun n => expectedPollActions (ans n.pidSelf) n)) =
      (pl.filter (fun n => (ans n.pidSelf).1 ≠ 0)).flatMap
        (fun n => doneReport n.pidSelf (ans n.pidSelf).2) := by
  induction pl with
  | nil => rfl
  | cons n rest ih =>
    simp only [List.flatMap_cons, reports_append, ih, reports_expectedPollActions]
    by_cases hz : (ans n.pidSelf).1 = 0
    · simp [List.filter_cons, hz]
    · simp [List.filter_cons, hz]

/-- C8. Let the pids of the job table be pairwise distinct and let the non-blocking `waitpid`
answer every pid of the table, whatever happened before, by `ans pid`, which is either 0 (still
running) or that pid together with a status. One full poll pass then terminates normally; the
table it leaves consists of exactly the jobs answered 0, in their original order; its actions
are, job by job in table order, the `waitpid` call and, for a terminated job only, the closes of
its descriptors other than 0 and 1 followed by its DONE report; and what it prints is exactly one
DONE report per terminated job, in table order, each naming the pid of the job and carrying the
exit code (for an exit status) or the terminating signal of the status answered for it. A further
pass over the resulting table under any oracle that answers 0 for all its jobs leaves the table
unchanged and performs nothing but `waitpid` calls returning 0, hence prints nothing. -/
theorem pollJobs_reaps_terminated (os : Oracle) (ans : Int → Int × Int)
    (pl : List stProcessList) (tr : Trace)
    (hnd : (pl.map (fun n => n.pidSelf)).Nodup)
    (hos : ∀ h, ∀ n ∈ pl, os.waitRet h n.pidSelf true = ans n.pidSelf)
    (hans : ∀ n ∈ pl, (ans n.pidSelf).1 = 0 ∨ (ans n.pidSelf).1 = n.pidSelf) :
    pollJobs os pl tr =
      Res.ok (pl.filter (fun n => (ans n.pidSelf).1 = 0),
        tr ++ pl.flatMap (fun n => expectedPollActions (ans n.pidSelf) n)) ∧
    reports (tr ++ pl.flatMap (fun n => expectedPollActions (ans n.pidSelf) n)) =
      reports tr ++ (pl.filter (fun n => (ans n.pidSelf).1 ≠ 0)).flatMap
        (fun n =>
          [SysEvent.printf "DONE with background process with pid [%d]: " [n.pidSelf],
           if (ans n.pidSelf).2 % 128 = 0 then
             SysEvent.printf "Exited with status %d\n" [((ans n.pidSelf).2 / 256) % 256]
           else SysEvent.printf "Terminated by signal %d\n" [(ans n.pidSelf).2 % 128]]) ∧
    ∀ (os2 : Oracle) (tr2 : Trace),
      (∀ h, ∀ n ∈ pl.filter (fun n => (ans n.pidSelf).1 = 0),
        (os2.waitRet h n.pidSelf true).1 = 0) →
      ∃ ws, pollJobs os2 (pl.filter (fun n => (ans n.pidSelf).1 = 0)) tr2 =
          Res.ok (pl.filter (fun n => (ans n.pidSelf).1 = 0), tr2 ++ ws) ∧
        (∀ e ∈ ws, ∃ pid status, e = SysEvent.sysWaitpid pid true 0 status) ∧
        reports (tr2 ++ ws) = reports tr2 := by
  refine ⟨?_, ?_, ?_⟩
  · have := pollLoop_distinct os ans pl [] (2 * pl.length) tr hos hans (by simpa using hnd)
      (by omega)
    rw [flatMap_pollEvents_eq_expected ans pl hans] at this
    simpa [pollJobs] using this
  · rw [reports_append, reports_flatMap_expected]
    congr 2
    funext n
    simp [doneReport, WIFEXITED, WEXITSTATUS, WTERMSIG]
  · intro os2 tr2 hos2
    obtain ⟨ws, hrun, hws⟩ := pollLoop_all_running os2
      (pl.filter (fun n => (ans n.pidSelf).1 = 0)) []
      (2 * (pl.filter (fun n => (ans n.pidSelf).1 = 0)).length) tr2 hos2 (by omega)
    refine ⟨ws, by simpa [pollJobs] using hrun, hws, ?_⟩
    simp only [reports, List.filter_append, List.append_right_eq_self, List.filter_eq_nil_iff]
    intro e he
    obtain ⟨pid, status, rfl⟩ := hws e he
    simp

/-- Witness for C8: a table of three jobs of which the second (pid 7, descriptors 3 and 4) has
exited with code 2, followed by a second pass under an oracle for which nothing has
terminated. -/
theorem pollJobs_reaps_terminated_witness :
    pollJobs demoReapOracle [⟨5, 0, 1⟩, ⟨7, 3, 4⟩, ⟨9, 0, 5⟩] [] =
      Res.ok ([⟨5, 0, 1⟩, ⟨9, 0, 5⟩],
        [SysEvent.sysWaitpid 5 true 0 0, SysEvent.sysWaitpid 7 true 7 512,
         SysEvent.sysClose 3, SysEvent.sysClose 4,
         SysEvent.printf "DONE with background process with pid [%d]: " [7],
         SysEvent.printf "Exited with status %d\n" [2],
         SysEvent.sysWaitpid 9 true 0 0]) ∧
    reports [SysEvent.sysWaitpid 5 true 0 0, SysEvent.sysWaitpid 7 true 7 512,
         SysEvent.sysClose 3, SysEvent.sysClose 4,
         SysEvent.printf "DONE with background process with pid [%d]: " [7],
         SysEvent.printf "Exited with status %d\n" [2],
         SysEvent.sysWaitpid 9 true 0 0] =
      [SysEvent.printf "DONE with background process with pid [%d]: " [7],
       SysEvent.printf "Exited with status %d\n" [2]] ∧
    ∃ ws, pollJobs demoOracle [⟨5, 0, 1⟩, ⟨9, 0, 5⟩] [] =
        Res.ok ([⟨5, 0, 1⟩, ⟨9, 0, 5⟩], [] ++ ws) ∧
      (∀ e ∈ ws, ∃ pid status, e = SysEvent.sysWaitpid pid true 0 status) ∧
      reports ([] ++ ws) = reports [] :=
  ⟨(pollJobs_reaps_terminated demoReapOracle demoAns [⟨5, 0, 1⟩, ⟨7, 3, 4⟩, ⟨9, 0, 5⟩] []
      (by decide) (fun _ _ _ => rfl) (by decide)).1,
   (pollJobs_reaps_terminated demoReapOracle demoAns [⟨5, 0, 1⟩, ⟨7, 3, 4⟩, ⟨9, 0, 5⟩] []
      (by decide) (fun _ _ _ => rfl) (by decide)).2.1,
   (pollJobs_reaps_terminated demoReapOracle demoAns [⟨5, 0, 1⟩, ⟨7, 3, 4⟩, ⟨9, 0, 5⟩] []
      (by decide) (fun _ _ _ => rfl) (by decide)).2.2 demoOracle [] (fun _ _ _ => rfl)⟩

/-! ## Descriptors left open after a parse error -/

/-- C9 (the code departs from the claim). On `cmd < in x`, where `in` opens as descriptor 3, the
compiler reports error kind 3 after having opened `in`; the main loop prints the message, polls
the (empty) job table and moves on without any `close`, so descriptor 3 stays open. The same
happens on `cmd < in > !out` when `!out` cannot be opened (error kind 5). -/
theorem externalCommandLine_leaks_descriptor :
    externalCommandLine demoOracle none 0
        ["cmd".toList, "<".toList, "in".toList, "x".toList]
        { bLastFgPSigTerm := 0, sLastFgPStat := 0, plBackgroundProcesses := [], hist := [] } =
      Res.ok (Outcome.next {
        bLastFgPSigTerm := 0, sLastFgPStat := 0, plBackgroundProcesses := [],
        hist := [SysEvent.sysOpen "in".toList OpenFlags.O_RDONLY 3,
                 SysEvent.puts "SMALLSH: Unexpected token"] }) ∧
    openDescriptors [] [SysEvent.sysOpen "in".toList OpenFlags.O_RDONLY 3,
                        SysEvent.puts "SMALLSH: Unexpected token"] = [3] ∧
    externalCommandLine demoOracle none 0
        ["cmd".toList, "<".toList, "in".toList, ">".toList, "!out".toList]
        { bLastFgPSigTerm := 0, sLastFgPStat := 0, plBackgroundProcesses := [], hist := [] } =
      Res.ok (Outcome.next {
        bLastFgPSigTerm := 0, sLastFgPStat := 0, plBackgroundProcesses := [],
        hist := [SysEvent.sysOpen "in".toList OpenFlags.O_RDONLY 3,
                 SysEvent.sysOpen "!out".toList OpenFlags.O_CREAT_TRUNC_WRONLY (-1),
                 SysEvent.puts "SMALLSH: Output file could not be opened"] }) ∧
    openDescriptors [] [SysEvent.sysOpen "in".toList OpenFlags.O_RDONLY 3,
                        SysEvent.sysOpen "!out".toList OpenFlags.O_CREAT_TRUNC_WRONLY (-1),
                        SysEvent.puts "SMALLSH: Output file could not be opened"] = [3] := by
  refine ⟨by decide, by decide, by decide, by decide⟩

/-! ## The mode toggle -/

/-- C10. For either initial value of the mode flag (0 or 1), running `hSIGTSTP` twice returns
`bForegroundOnly` to its original value. Each run performs exactly one `write`, of the
"Entering foreground-only mode" literal when the flag becomes non-zero and of the
"Exiting foreground-only mode" literal when it becomes zero; the two writes are different, so
two successive toggles print the two different banners. -/
theorem hSIGTSTP_twice (b : Int) (tr : Trace) (hb : b = 0 ∨ b = 1) :
    (hSIGTSTP (hSIGTSTP b tr).1 (hSIGTSTP b tr).2).1 = b ∧
    (hSIGTSTP b tr).2 = tr ++
      [if (hSIGTSTP b tr).1 ≠ 0 then writeLiteral STDOUT_FILENO szEnterBanner 53
       else writeLiteral STDOUT_FILENO szExitBanner 33] ∧
    (hSIGTSTP (hSIGTSTP b tr).1 (hSIGTSTP b tr).2).2 = tr ++
      [if (hSIGTSTP b tr).1 ≠ 0 then writeLiteral STDOUT_FILENO szEnterBanner 53
       else writeLiteral STDOUT_FILENO szExitBanner 33,
       if b ≠ 0 then writeLiteral STDOUT_FILENO szEnterBanner 53
       else writeLiteral STDOUT_FILENO szExitBanner 33] ∧
    ((hSIGTSTP b tr).1 ≠ 0 ↔ b = 0) ∧
    writeLiteral STDOUT_FILENO szEnterBanner 53 ≠ writeLiteral STDOUT_FILENO szExitBanner 33 := by
  have hne : writeLiteral STDOUT_FILENO szEnterBanner 53
      ≠ writeLiteral STDOUT_FILENO szExitBanner 33 := by decide
  rcases hb with rfl | rfl
  · refine ⟨by simp [hSIGTSTP], by simp [hSIGTSTP], by simp [hSIGTSTP], by simp [hSIGTSTP], hne⟩
  · refine ⟨by simp [hSIGTSTP], by simp [hSIGTSTP], by simp [hSIGTSTP], by simp [hSIGTSTP], hne⟩

/-- Witness for C10: the flag starts at 0 with an empty history. -/
theorem hSIGTSTP_twice_witness :
    (hSIGTSTP (hSIGTSTP 0 []).1 (hSIGTSTP 0 []).2).1 = 0 ∧
    (hSIGTSTP 0 []).2 = [] ++
      [if (hSIGTSTP 0 []).1 ≠ 0 then writeLiteral STDOUT_FILENO szEnterBanner 53
       else writeLiteral STDOUT_FILENO szExitBanner 33] ∧
    (hSIGTSTP (hSIGTSTP 0 []).1 (hSIGTSTP 0 []).2).2 = [] ++
      [if (hSIGTSTP 0 []).1 ≠ 0 then writeLiteral STDOUT_FILENO szEnterBanner 53
       else writeLiteral STDOUT_FILENO szExitBanner 33,
       if (0 : Int) ≠ 0 then writeLiteral STDOUT_FILENO szEnterBanner 53
       else writeLiteral STDOUT_FILENO szExitBanner 33] ∧
    ((hSIGTSTP 0 []).1 ≠ 0 ↔ (0 : Int) = 0) ∧
    writeLiteral STDOUT_FILENO szEnterBanner 53 ≠ writeLiteral STDOUT_FILENO szExitBanner 33 :=
  hSIGTSTP_twice 0 [] (Or.inl rfl)

/-! ## The bytes written by the mode toggle -/

/-- C11 (the code departs from the claim). For either value of the mode flag the `write` of
`hSIGTSTP` carries one byte more than the text "newline, banner, newline, prompt marker": the
byte counts 53 and 33 passed to `write` include the NUL that terminates the string literal, so
the output ends with a NUL byte behind the prompt marker and is one byte longer than the text
(53 bytes for a text of 52, 33 bytes for a text of 32). -/
theorem hSIGTSTP_writes_trailing_nul :
    (hSIGTSTP 0 []).2 =
      [SysEvent.sysWrite STDOUT_FILENO
        ("\nEntering foreground-only mode (& is now ignored)\n: ".toList ++ [Char.ofNat 0])] ∧
    (hSIGTSTP 1 []).2 =
      [SysEvent.sysWrite STDOUT_FILENO
        ("\nExiting foreground-only mode\n: ".toList ++ [Char.ofNat 0])] ∧
    "\nEntering foreground-only mode (& is now ignored)\n: ".toList.length = 52 ∧
    "\nExiting foreground-only mode\n: ".toList.length = 32 ∧
    ("\nEntering foreground-only mode (& is now ignored)\n: ".toList ++ [Char.ofNat 0]).getLast?
      = some (Char.ofNat 0) ∧
    ("\nExiting foreground-only mode\n: ".toList ++ [Char.ofNat 0]).getLast?
      = some (Char.ofNat 0) := by
  refine ⟨by decide, by decide, by decide, by decide, by decide, by decide⟩

/-! ## Geometric growth of the argument buffer -/

theorem fnResizeString_least (fuel : Nat) (str : CStr) (g : Nat) :
    ∀ s : Nat, 0 < s → str.length + 1 ≤ s → g ≤ s + fuel →
      ∃ n, fnResizeString fuel str s g = Res.ok (str, s * 2 ^ n) ∧ g ≤ s * 2 ^ n ∧
        (∀ m, m < n → s * 2 ^ m < g) ∧ (g ≤ s → n = 0) := by
  induction fuel with
  | zero =>
    intro s _ _ hg
    refine ⟨0, ?_, by simpa using hg, by simp, fun _ => rfl⟩
    unfold fnResizeString
    rw [if_neg (by omega)]
    simp
  | succ fuel ih =>
    intro s hs hfit hg
    unfold fnResizeString
    by_cases hgt : g > s
    · rw [if_pos hgt]
      have hcopy : 0 + str.length + 1 ≤ s * 2 := by omega
      simp only [strcpyAt, if_pos hcopy, Nat.zero_le, if_true, List.take_zero, List.nil_append]
      obtain ⟨n, e, c1, c2, _⟩ := ih (s * 2) (by omega) (by omega) (by omega)
      refine ⟨n + 1, ?_, ?_, ?_, fun h => by omega⟩
      · rw [e, pow_succ]
        congr 2
        ring
      · calc g ≤ s * 2 * 2 ^ n := c1
          _ = s * 2 ^ (n + 1) := by ring
      · intro m hm
        cases m with
        | zero => simpa using hgt
        | succ m =>
          have := c2 m (by omega)
          calc s * 2 ^ (m + 1) = s * 2 * 2 ^ m := by ring
            _ < g := this
    · rw [if_neg hgt]
      exact ⟨0, by simp, by simpa using Nat.le_of_not_gt hgt, by simp, fun _ => rfl⟩

/-- C16. For every start capacity `s > 0` holding the string (its bytes, NUL included, fit in
`s`) and every goal `g`, `fnResizeString` with at least `g` units of fuel terminates and returns
the capacity `s * 2 ^ n` for the least `n` with `s * 2 ^ n ≥ g`; the returned capacity is at
least `g`, the string comes back with the same contents, and when `s ≥ g` the capacity `s` is
returned unchanged. -/
theorem fnResizeString_doubles_until_fits (fuel : Nat) (str : CStr) (s g : Nat)
    (hs : 0 < s) (hfit : str.length + 1 ≤ s) (hfuel : g ≤ fuel) :
    ∃ n, fnResizeString fuel str s g = Res.ok (str, s * 2 ^ n) ∧ g ≤ s * 2 ^ n ∧
      (∀ m, m < n → s * 2 ^ m < g) ∧
      (g ≤ s → fnResizeString fuel str s g = Res.ok (str, s)) := by
  obtain ⟨n, e, c1, c2, c3⟩ := fnResizeString_least fuel str g s hs hfit (by omega)
  refine ⟨n, e, c1, c2, fun h => ?_⟩
  rw [e, c3 h]
  simp

/-- Witness for C16: a 4-byte buffer holding `abc` grown to hold 13 bytes ends at 16 bytes. -/
theorem fnResizeString_doubles_until_fits_witness :
    ∃ n, fnResizeString 13 "abc".toList 4 13 = Res.ok ("abc".toList, 4 * 2 ^ n) ∧
      13 ≤ 4 * 2 ^ n ∧ (∀ m, m < n → 4 * 2 ^ m < 13) ∧
      (13 ≤ 4 → fnResizeString 13 "abc".toList 4 13 = Res.ok ("abc".toList, 4)) :=
  fnResizeString_doubles_until_fits 13 "abc".toList 4 13 (by decide) (by decide) (by decide)

/-! ## Lines without redirection tokens -/

theorem compileStep_argument (os : Oracle) (szHome : Option CStr) (fo : Int) (tok : CStr)
    (more : Bool) (st : Compiler) (hph : st.sPhase = 0) (h1 : tok ≠ szLt) (h2 : tok ≠ szGt)
    (h3 : tok ≠ szAmp ∨ more = true) :
    compileStep os szHome fo tok more st =
      Res.ok { st with comC := { st.comC with arrsz_args := st.comC.arrsz_args ++ [tok] } } := by
  have hc : ¬ (tok = szAmp ∧ more = false) := by
    rintro ⟨e1, e2⟩
    rcases h3 with h | h
    · exact h e1
    · rw [e2] at h
      cases h
  simp [compileStep, hph, h1, h2, hc]

theorem compileLoop_arguments (os : Oracle) (szHome : Option CStr) (fo : Int) (a : List CStr) :
    ∀ (r : List CStr) (idx : Nat) (st : Compiler), (∀ x ∈ a, x ≠ szLt ∧ x ≠ szGt) →
      (r ≠ [] ∨ a.getLast? ≠ some szAmp) →
      st.sPhase = 0 → st.idMyErrno = 0 → idx + a.length ≤ 511 →
      compileLoop os szHome fo (a ++ r) idx st =
        compileLoop os szHome fo r (idx + a.length)
          { st with comC := { st.comC with arrsz_args := st.comC.arrsz_args ++ a } } := by
  induction a with
  | nil =>
    intro r idx st _ _ _ _ _
    simp
  | cons x a ih =>
    intro r idx st hno hlast hph herr hlen
    simp only [List.length_cons] at hlen
    have hidx : idx < 511 := by omega
    have hx := hno x (List.mem_cons_self _ _)
    have hmore : x ≠ szAmp ∨ (!(a ++ r).isEmpty) = true := by
      cases a with
      | nil =>
        cases r with
        | nil =>
          left
          intro e
          rcases hlast with h | h
          · exact h rfl
          · apply h
            simp [e]
        | cons y r =>
          right
          rfl
      | cons y a =>
        right
        rfl
    have hlast2 : r ≠ [] ∨ a.getLast? ≠ some szAmp := by
      rcases hlast with h | h
      · exact Or.inl h
      · cases a with
        | nil => exact Or.inr (by simp)
        | cons y a => exact Or.inr (getLast?_cons_cons_ne x y a szAmp h)
    simp only [List.cons_append, compileLoop, hidx, herr, and_self, if_true, List.append_eq]
    rw [compileStep_argument os szHome fo x _ st hph hx.1 hx.2 hmore]
    simp only []
    rw [ih r (idx + 1)
      { st with comC := { st.comC with arrsz_args := st.comC.arrsz_args ++ [x] } }
      (fun y hy => hno y (List.mem_cons_of_mem _ hy)) hlast2 hph herr (by omega)]
    simp only [List.append_assoc, List.singleton_append, List.length_cons, herr]
    congr 1
    omega

theorem eq_dropLast_append_amp (t : List CStr) (h : t.getLast? = some szAmp) :
    t = t.dropLast ++ [szAmp] := by
  have hne : t ≠ [] := by
    intro e
    rw [e] at h
    simp at h
  have h2 := List.dropLast_append_getLast hne
  rw [List.getLast?_eq_getLast t hne] at h
  simp only [Option.some.injEq] at h
  rw [h] at h2
  exact h2.symm

theorem compileLoop_final_amp (os : Oracle) (szHome : Option CStr) (fo : Int) (idx : Nat)
    (st : Compiler) (hph : st.sPhase = 0) (herr : st.idMyErrno = 0) (hidx : idx < 511) :
    compileLoop os szHome fo [szAmp] idx st =
      Res.ok (if fo = 0 then
        { st with
          comC := { st.comC with
            bForeground := 0,
            fdIn := (sysOpen os st.hist szDevNull OpenFlags.O_RDONLY).1,
            fdOut := (sysOpen os (sysOpen os st.hist szDevNull OpenFlags.O_RDONLY).2 szDevNull
              OpenFlags.O_WRONLY).1 },
          hist := (sysOpen os (sysOpen os st.hist szDevNull OpenFlags.O_RDONLY).2 szDevNull
            OpenFlags.O_WRONLY).2 }
        else st) := by
  have h1 : szAmp ≠ szLt := by decide
  have h2 : szAmp ≠ szGt := by decide
  by_cases hfo : fo = 0
  · simp [compileLoop, compileStep, hph, herr, hidx, h1, h2, hfo]
  · simp [compileLoop, compileStep, hph, herr, hidx, h1, h2, hfo]

/-- C17. For every token sequence `t` that fits the array and contains no `<` and no `>` token,
`fnStCommandCreate` returns 0 and the argument vector is `t` in order with only a final `&`
removed; every `&` that is not the last token is an argument. When the last token is not `&`
(for instance on `cmd & x`) the command stays a foreground command with the standard
descriptors and no system call is made. -/
theorem fnStCommandCreate_no_redirection (os : Oracle) (szHome : Option CStr) (tr : Trace)
    (t : List CStr) (bForegroundOnly : Int)
    (hno : ∀ x ∈ t, x ≠ szLt ∧ x ≠ szGt) (hlen : t.length ≤ 511) :
    ∃ c, fnStCommandCreate os szHome tr t bForegroundOnly = Res.ok c ∧ c.idMyErrno = 0 ∧
      c.comC.arrsz_args = (if t.getLast? = some szAmp then t.dropLast else t) ∧
      (t.getLast? ≠ some szAmp →
        c.comC.bForeground = 1 ∧ c.comC.fdIn = STDIN_FILENO ∧ c.comC.fdOut = STDOUT_FILENO ∧
          c.hist = tr) := by
  by_cases hlast : t.getLast? = some szAmp
  · have ht := eq_dropLast_append_amp t hlast
    have hlen2 : t.dropLast.length + 1 ≤ 511 := by
      have := congrArg List.length ht
      simp only [List.length_append, List.length_singleton] at this
      omega
    have hno2 : ∀ x ∈ t.dropLast, x ≠ szLt ∧ x ≠ szGt :=
      fun x hx => hno x (List.dropLast_subset t hx)
    have hloop := compileLoop_arguments os szHome bForegroundOnly t.dropLast [szAmp] 0
      { comC := { arrsz_args := [], fdIn := STDIN_FILENO, fdOut := STDOUT_FILENO,
                  bForeground := 1 },
        sPhase := 0, idMyErrno := 0, hist := tr } hno2 (Or.inl (by simp)) rfl rfl (by omega)
    rw [← ht, compileLoop_final_amp os szHome bForegroundOnly _ _ rfl rfl (by omega)] at hloop
    unfold fnStCommandCreate
    rw [hloop]
    by_cases hfo : bForegroundOnly = 0
    · rw [if_pos hfo]
      exact ⟨_, rfl, rfl, by simp [hlast], fun h => absurd hlast h⟩
    · rw [if_neg hfo]
      exact ⟨_, rfl, rfl, by simp [hlast], fun h => absurd hlast h⟩
  · unfold fnStCommandCreate
    have hloop := compileLoop_arguments os szHome bForegroundOnly t [] 0
      { comC := { arrsz_args := [], fdIn := STDIN_FILENO, fdOut := STDOUT_FILENO,
                  bForeground := 1 },
        sPhase := 0, idMyErrno := 0, hist := tr } hno (Or.inr hlast) rfl rfl (by omega)
    rw [List.append_nil] at hloop
    rw [hloop]
    exact ⟨_, rfl, rfl, by simp [hlast], fun _ => ⟨rfl, rfl, rfl, rfl⟩⟩

/-- Witness for C17: `cmd & x`. -/
theorem fnStCommandCreate_no_redirection_witness :
    ∃ c, fnStCommandCreate demoOracle none [] ["cmd".toList, "&".toList, "x".toList] 0
        = Res.ok c ∧ c.idMyErrno = 0 ∧
      c.comC.arrsz_args =
        (if ["cmd".toList, "&".toList, "x".toList].getLast? = some szAmp
          then ["cmd".toList, "&".toList, "x".toList].dropLast
          else ["cmd".toList, "&".toList, "x".toList]) ∧
      (["cmd".toList, "&".toList, "x".toList].getLast? ≠ some szAmp →
        c.comC.bForeground = 1 ∧ c.comC.fdIn = STDIN_FILENO ∧ c.comC.fdOut = STDOUT_FILENO ∧
          c.hist = []) :=
  fnStCommandCreate_no_redirection demoOracle none [] ["cmd".toList, "&".toList, "x".toList] 0
    (by decide) (by decide)

/-! ## Background execution only on request -/

theorem compileStep_foreground_only_keeps (os : Oracle) (szHome : Option CStr) (fo : Int)
    (hfo : fo ≠ 0) (tok : CStr) (more : Bool) (st r : Compiler)
    (hrun : compileStep os szHome fo tok more st = Res.ok r) :
    r.comC.bForeground = st.comC.bForeground := by
  by_cases h : tok ≠ szAmp ∨ more = true
  · exact compileStep_keeps_foreground os szHome fo tok more st r h hrun
  · have h1 : tok = szAmp := by
      by_contra hne
      exact h (Or.inl hne)
    have h2 : more = false := by
      cases more with
      | false => rfl
      | true => exact absurd (Or.inr rfl) h
    subst h1
    subst h2
    obtain ⟨comC, ph, err, hist⟩ := st
    have e1 : szAmp ≠ szLt := by decide
    have e2 : szAmp ≠ szGt := by decide
    rcases ph with _ | _ | _ | _ | _ | n
    · simp only [compileStep, e1, e2, if_false, and_self, if_true, hfo, Res.ok.injEq] at hrun
      subst hrun
      rfl
    · simp only [compileStep] at hrun
      split at hrun
      · cases hrun
      · cases hrun
      · split at hrun <;> (simp only [Res.ok.injEq] at hrun; subst hrun; rfl)
    · simp only [compileStep, e2, if_false, and_self, if_true, hfo, Res.ok.injEq] at hrun
      subst hrun
      rfl
    · simp only [compileStep] at hrun
      split at hrun
      · cases hrun
      · cases hrun
      · split at hrun <;> (simp only [Res.ok.injEq] at hrun; subst hrun; rfl)
    · simp only [compileStep, ne_eq, not_true_eq_false, Bool.false_eq_true, or_self, if_false,
        hfo, Res.ok.injEq] at hrun
      subst hrun
      rfl
    · simp only [compileStep, Res.ok.injEq] at hrun
      subst hrun
      rfl

theorem compileLoop_foreground_only_keeps (os : Oracle) (szHome : Option CStr) (fo : Int)
    (hfo : fo ≠ 0) (t : List CStr) :
    ∀ (idx : Nat) (st r : Compiler), compileLoop os szHome fo t idx st = Res.ok r →
      r.comC.bForeground = st.comC.bForeground := by
  induction t with
  | nil =>
    intro idx st r hrun
    simp only [compileLoop, Res.ok.injEq] at hrun
    subst hrun
    rfl
  | cons tok rest ih =>
    intro idx st r hrun
    simp only [compileLoop] at hrun
    split at hrun
    · cases hs : compileStep os szHome fo tok (!rest.isEmpty) st with
      | fault => simp [hs] at hrun
      | timeout => simp [hs] at hrun
      | ok st2 =>
        simp only [hs] at hrun
        rw [ih (idx + 1) st2 r hrun]
        exact compileStep_foreground_only_keeps os szHome fo hfo tok _ st st2 hs
    · simp only [Res.ok.injEq] at hrun
      subst hrun
      rfl

theorem compileLoop_flag_irrelevant (os : Oracle) (szHome : Option CStr) (fo fo2 : Int)
    (t : List CStr) :
    ∀ (idx : Nat) (st : Compiler), t.getLast? ≠ some szAmp →
      compileLoop os szHome fo t idx st = compileLoop os szHome fo2 t idx st := by
  induction t with
  | nil =>
    intro idx st _
    rfl
  | cons tok rest ih =>
    intro idx st hlast
    have hcond : tok ≠ szAmp ∨ (!rest.isEmpty) = true := by
      cases rest with
      | nil =>
        left
        intro h
        apply hlast
        simp [h]
      | cons y rest =>
        right
        rfl
    have hlast2 : rest.getLast? ≠ some szAmp := by
      cases rest with
      | nil => simp
      | cons y rest => exact getLast?_cons_cons_ne tok y rest szAmp hlast
    simp only [compileLoop]
    rw [compileStep_flag_irrelevant os szHome fo fo2 tok _ st hcond]
    split
    · cases compileStep os szHome fo2 tok (!rest.isEmpty) st with
      | fault => rfl
      | timeout => rfl
      | ok st2 => exact ih (idx + 1) st2 hlast2
    · rfl

/-- C18. A command is put in the background only on request. For every token sequence `t` and
mode flag value: if `fnStCommandCreate` returns 0 with the foreground flag 0, then the mode flag
is 0 (not foreground-only) and the last token of `t` is `&`; and whenever the last token of `t`
is not `&`, the whole result of `fnStCommandCreate` (return value, struct, history, or fault) is
the same for every value of the mode flag. -/
theorem fnStCommandCreate_background_on_request (os : Oracle) (szHome : Option CStr)
    (tr : Trace) (t : List CStr) (bForegroundOnly : Int) :
    (∀ c, fnStCommandCreate os szHome tr t bForegroundOnly = Res.ok c → c.idMyErrno = 0 →
      c.comC.bForeground = 0 → bForegroundOnly = 0 ∧ t.getLast? = some szAmp) ∧
    (t.getLast? ≠ some szAmp → ∀ fo2,
      fnStCommandCreate os szHome tr t bForegroundOnly = fnStCommandCreate os szHome tr t fo2) := by
  constructor
  · intro c hrun _ hbg
    unfold fnStCommandCreate at hrun
    cases hl : compileLoop os szHome bForegroundOnly t 0
        { comC := { arrsz_args := [], fdIn := STDIN_FILENO, fdOut := STDOUT_FILENO,
                    bForeground := 1 },
          sPhase := 0, idMyErrno := 0, hist := tr } with
    | fault => simp [hl] at hrun
    | timeout => simp [hl] at hrun
    | ok r =>
      simp only [hl, Res.ok.injEq] at hrun
      subst hrun
      simp only at hbg
      constructor
      · by_contra hfo
        have := compileLoop_foreground_only_keeps os szHome bForegroundOnly hfo t 0 _ r hl
        rw [hbg] at this
        cases this
      · by_contra hlast
        have := compileLoop_keeps_foreground os szHome bForegroundOnly t 0 _ r hlast hl
        rw [hbg] at this
        cases this
  · intro hlast fo2
    unfold fnStCommandCreate
    rw [compileLoop_flag_irrelevant os szHome bForegroundOnly fo2 t 0 _ hlast]

/-- Witness for C18: `cmd < in &` under mode flag 0 is a background command, and `cmd < in`
compiles to the same result under the flags 0 and 1. -/
theorem fnStCommandCreate_background_on_request_witness :
    ((0 : Int) = 0 ∧
      ["cmd".toList, "<".toList, "in".toList, "&".toList].getLast? = some szAmp) ∧
    fnStCommandCreate demoOracle none [] ["cmd".toList, "<".toList, "in".toList] 0 =
      fnStCommandCreate demoOracle none [] ["cmd".toList, "<".toList, "in".toList] 1 :=
  ⟨(fnStCommandCreate_background_on_request demoOracle none []
      ["cmd".toList, "<".toList, "in".toList, "&".toList] 0).1
      { idMyErrno := 0,
        comC := { arrsz_args := ["cmd".toList], fdIn := 3, fdOut := 4, bForeground := 0 },
        hist := [SysEvent.sysOpen "in".toList OpenFlags.O_RDONLY 3,
                 SysEvent.sysOpen szDevNull OpenFlags.O_WRONLY 4] }
      (by decide) rfl rfl,
   (fnStCommandCreate_background_on_request demoOracle none []
      ["cmd".toList, "<".toList, "in".toList] 0).2 (by decide) 1⟩

/-! ## A failing `waitpid` in the poll loop -/

theorem fnStProcessListPopMatching_present (pl : List stProcessList) :
    ∀ (k : Nat) (n : stProcessList), pl[k]? = some n →
      ∃ j node pl2, fnStProcessListPopMatching pl n.pidSelf = (some (j, node), pl2) ∧
        j ≤ k ∧ pl2.length + 1 = pl.length := by
  induction pl with
  | nil =>
    intro k n h
    simp at h
  | cons m rest ih =>
    intro k n h
    by_cases hm : m.pidSelf = n.pidSelf
    · exact ⟨0, m, rest, by simp [fnStProcessListPopMatching, hm], Nat.zero_le _, rfl⟩
    · cases k with
      | zero =>
        simp only [List.getElem?_cons_zero, Option.some.injEq] at h
        subst h
        exact absurd rfl hm
      | succ k =>
        simp only [List.getElem?_cons_succ] at h
        obtain ⟨j, node, pl2, e, hj, hl⟩ := ih k n h
        refine ⟨j + 1, node, m :: pl2, ?_, by omega, by simp [hl]⟩
        simp [fnStProcessListPopMatching, hm, e]

theorem pollLoop_completes (os : Oracle)
    (hos : ∀ h pid, (os.waitRet h pid true).1 = 0 ∨ (os.waitRet h pid true).1 = pid)
    (fuel : Nat) :
    ∀ (pl : List stProcessList) (plI : Nat) (tr : Trace),
      plI ≤ pl.length → 2 * pl.length ≤ fuel + plI →
      ∃ r, pollLoop os fuel pl plI tr = Res.ok r := by
  induction fuel with
  | zero =>
    intro pl plI tr hk hf
    have hnone : pl[plI]? = none := by
      rw [List.getElem?_eq_none_iff]
      omega
    unfold pollLoop
    rw [hnone]
    exact ⟨_, rfl⟩
  | succ fuel ih =>
    intro pl plI tr hk hf
    unfold pollLoop
    cases hget : pl[plI]? with
    | none => exact ⟨_, rfl⟩
    | some node =>
      have hlt : plI < pl.length := by
        by_contra hge
        have : pl[plI]? = none := by
          rw [List.getElem?_eq_none_iff]
          omega
        rw [this] at hget
        cases hget
      simp only []
      by_cases hz : (os.waitRet tr node.pidSelf true).1 = 0
      · simp only [hz, ne_eq, not_true_eq_false, if_false]
        exact ih pl (plI + 1) _ (by omega) (by omega)
      · have hpid := (hos tr node.pidSelf).resolve_left hz
        obtain ⟨j, prDone, pl2, e, hj, hl⟩ := fnStProcessListPopMatching_present pl plI node hget
        have hne : ¬ node.pidSelf = 0 := by
          rw [← hpid]
          exact hz
        simp only [ne_eq, hpid, hne, not_false_eq_true, if_true, e]
        by_cases hjk : j = plI
        · rw [if_pos hjk]
          exact ih pl2 plI _ (by omega) (by omega)
        · have hjlt : j < plI := by omega
          rw [if_neg hjk, if_pos hjlt]
          exact ih pl2 (plI - 1) _ (by omega) (by omega)

theorem pollJobs_completes_without_wait_errors (os : Oracle)
    (hos : ∀ h pid, (os.waitRet h pid true).1 = 0 ∨ (os.waitRet h pid true).1 = pid)
    (pl : List stProcessList) (tr : Trace) :
    ∃ r, pollJobs os pl tr = Res.ok r :=
  pollLoop_completes os hos (2 * pl.length) pl 0 tr (Nat.zero_le _) (by omega)

/-- C19 (the code departs from the claim). When the non-blocking `waitpid` on the only job of the
table (pid 5) returns -1, the poll loop passes -1 to `fnStProcessListPopMatching`; no node has
that pid, the result is a null pointer, and the loop reads the descriptors through it. -/
theorem pollJobs_wait_error_null_node :
    fnStProcessListPopMatching [⟨5, 3, 4⟩] (-1) = (none, [⟨5, 3, 4⟩]) ∧
    pollJobs demoWaitErrorOracle [⟨5, 3, 4⟩] [] = Res.fault := by
  refine ⟨by decide, by decide⟩

/-! ## The split step of the tokenizer -/

theorem cString_nil : cString [] = [] := rfl

theorem mem_cString (s : List Char) (c : Char) (h : c ∈ cString s) :
    c ∈ s ∧ c ≠ Char.ofNat 0 := by
  refine ⟨(List.takeWhile_sublist _).subset h, ?_⟩
  have := List.mem_takeWhile_imp h
  simpa using this

theorem cString_eq_self (s : List Char) (h : ∀ c ∈ s, c ≠ Char.ofNat 0) : cString s = s := by
  unfold cString
  rw [List.takeWhile_eq_self_iff]
  intro c hc
  simpa using h c hc

theorem cString_length_le (s : List Char) : (cString s).length ≤ s.length :=
  (List.takeWhile_sublist _).length_le

theorem strtokLoop_nil (delim : CStr) (n : Nat) : strtokLoop delim n [] = [] := by
  cases n with
  | zero => rfl
  | succ n => simp [strtokLoop, strtok_r, cString_nil]

theorem splitOnP_filter_dropWhile (p : Char → Bool) (s : CStr) :
    (s.splitOnP p).filter (fun l => !l.isEmpty) =
      ((s.dropWhile p).splitOnP p).filter (fun l => !l.isEmpty) := by
  induction s with
  | nil => rfl
  | cons x xs ih =>
    by_cases hx : p x = true
    · rw [List.dropWhile_cons_of_pos hx, List.splitOnP_cons, if_pos hx, ← ih]
      simp
    · rw [List.dropWhile_cons_of_neg hx]

theorem strtok_r_head_not_delim (p : Char → Bool) (s : CStr) (c : Char) (t : CStr)
    (h : s.dropWhile p = c :: t) : p c = false := by
  have := List.head?_dropWhile_not p s
  rw [h] at this
  simpa using this

theorem dropWhile_length_le (p : Char → Bool) (s : CStr) : (s.dropWhile p).length ≤ s.length := by
  induction s with
  | nil => simp
  | cons x xs ih =>
    rw [List.dropWhile_cons]
    split
    · simp only [List.length_cons]
      omega
    · exact le_refl _

theorem takeWhile_not_delim_ne_nil (p : Char → Bool) (c : Char) (t : CStr) (hc : p c = false) :
    (c :: t).takeWhile (fun x => !p x) ≠ [] := by
  rw [List.takeWhile_cons]
  simp [hc]

theorem splitOnP_first_run (p : Char → Bool) (c : Char) (t : CStr) (hc : p c = false) :
    ((c :: t).splitOnP p).filter (fun l => !l.isEmpty) =
      (c :: t).takeWhile (fun x => !p x) ::
        ((((c :: t).dropWhile (fun x => !p x)).drop 1).splitOnP p).filter (fun l => !l.isEmpty) ∧
    (((c :: t).dropWhile (fun x => !p x)).drop 1).length ≤ t.length := by
  have hsplit := List.takeWhile_append_dropWhile (fun x => !p x) (c :: t)
  have htok : ∀ x ∈ (c :: t).takeWhile (fun x => !p x), ¬ p x = true := by
    intro x hx
    have := List.mem_takeWhile_imp hx
    simpa using this
  have hne := takeWhile_not_delim_ne_nil p c t hc
  have hemp : ((c :: t).takeWhile (fun x => !p x)).isEmpty = false := by
    cases h : (c :: t).takeWhile (fun x => !p x) with
    | nil => exact absurd h hne
    | cons y ys => rfl
  have hlen := dropWhile_length_le (fun x => !p x) (c :: t)
  have hdc : (c :: t).dropWhile (fun x => !p x) = t.dropWhile (fun x => !p x) := by
    rw [List.dropWhile_cons]
    simp [hc]
  have hlen2 := dropWhile_length_le (fun x => !p x) t
  cases hdw : (c :: t).dropWhile (fun x => !p x) with
  | nil =>
    rw [hdw, List.append_nil] at hsplit
    constructor
    · conv_lhs => rw [← hsplit]
      rw [List.splitOnP_eq_single p _ htok]
      simp [List.filter_cons, hemp, List.splitOnP_nil]
    · simp
  | cons d r =>
    have hd2 : p d = true := by
      have := strtok_r_head_not_delim _ (c :: t) d r hdw
      simpa using this
    rw [hdw] at hsplit
    constructor
    · conv_lhs => rw [← hsplit]
      rw [List.splitOnP_first p _ htok d hd2 r]
      simp [List.filter_cons, hemp]
    · rw [hdc] at hdw
      rw [hdw] at hlen2
      simp only [List.drop_succ_cons, List.drop_zero, List.length_cons] at hlen2 ⊢
      omega

theorem strtok_r_rest_clean (delim : CStr) (s : List Char) (c : Char) (t : CStr)
    (hd : (cString s).dropWhile (fun c => delim.contains c) = c :: t) :
    ∀ x ∈ ((c :: t).dropWhile (fun c => !delim.contains c)).drop 1, x ≠ Char.ofNat 0 := by
  intro x hx
  have h1 : x ∈ (c :: t).dropWhile (fun c => !delim.contains c) := List.mem_of_mem_drop hx
  have h2 : x ∈ c :: t := (List.dropWhile_sublist _).subset h1
  rw [← hd] at h2
  have h3 : x ∈ cString s := (List.dropWhile_sublist _).subset h2
  exact (mem_cString s x h3).2

theorem strtokLoop_eq_runs (delim : CStr) (len : Nat) :
    ∀ (s : List Char) (n : Nat), s.length ≤ len →
      strtokLoop delim n s =
        (((cString s).splitOnP (fun c => delim.contains c)).filter
          (fun l => !l.isEmpty)).take n := by
  induction len with
  | zero =>
    intro s n hs
    have : s = [] := List.eq_nil_of_length_eq_zero (by omega)
    subst this
    rw [strtokLoop_nil, cString_nil]
    simp [List.splitOnP_nil]
  | succ len ih =>
    intro s n hs
    cases n with
    | zero => simp [strtokLoop]
    | succ n =>
      rw [splitOnP_filter_dropWhile]
      unfold strtokLoop strtok_r
      cases hd : (cString s).dropWhile (fun c => delim.contains c) with
      | nil => simp [List.splitOnP_nil]
      | cons c t =>
        simp only []
        have hc := strtok_r_head_not_delim _ (cString s) c t hd
        obtain ⟨e, hl⟩ := splitOnP_first_run (fun c => delim.contains c) c t hc
        have hlen1 := dropWhile_length_le (fun c => delim.contains c) (cString s)
        have hlen0 := cString_length_le s
        rw [hd] at hlen1
        simp only [List.length_cons] at hlen1
        rw [e, List.take_succ_cons, ih _ n (by omega),
          cString_eq_self _ (strtok_r_rest_clean delim s c t hd)]

theorem strtokLoop_tokens (delim : CStr) (n : Nat) :
    ∀ (s : List Char), (strtokLoop delim n s).length ≤ n ∧
      ∀ tok ∈ strtokLoop delim n s,
        tok ≠ [] ∧ ∀ c ∈ tok, c ∉ delim ∧ c ≠ Char.ofNat 0 := by
  induction n with
  | zero =>
    intro s
    simp [strtokLoop]
  | succ n ih =>
    intro s
    unfold strtokLoop strtok_r
    cases hd : (cString s).dropWhile (fun c => delim.contains c) with
    | nil => simp
    | cons c t =>
      simp only []
      have hc := strtok_r_head_not_delim _ (cString s) c t hd
      obtain ⟨h1, h2⟩ := ih (((c :: t).dropWhile (fun c => !delim.contains c)).drop 1)
      constructor
      · simp only [List.length_cons]
        omega
      · intro tok htok
        rcases List.mem_cons.mp htok with e | hmem
        · subst e
          constructor
          · exact takeWhile_not_delim_ne_nil (fun c => delim.contains c) c t hc
          · intro x hx
            constructor
            · have := List.mem_takeWhile_imp hx
              simpa using this
            · have h2 : x ∈ c :: t := (List.takeWhile_sublist _).subset hx
              rw [← hd] at h2
              have h3 : x ∈ cString s := (List.dropWhile_sublist _).subset h2
              exact (mem_cString s x h3).2
        · exact h2 tok hmem

theorem tokenizeLoop_length (szPid : CStr) (n : Nat) :
    ∀ (s : CStr) (args : List CStr), tokenizeLoop szPid n s = Res.ok args →
      args.length = (strtokLoop szDelim n s).length := by
  induction n with
  | zero =>
    intro s args h
    simp only [tokenizeLoop, Res.ok.injEq] at h
    subst h
    rfl
  | succ n ih =>
    intro s args h
    unfold tokenizeLoop at h
    unfold strtokLoop
    cases hs : strtok_r szDelim s with
    | none =>
      simp only [hs, Res.ok.injEq] at h
      subst h
      rfl
    | some tr =>
      obtain ⟨tok, rest⟩ := tr
      simp only [hs] at h
      cases he : expandToken szPid tok.length tok with
      | fault => simp [he] at h
      | timeout => simp [he] at h
      | ok arg =>
        simp only [he] at h
        cases hr : tokenizeLoop szPid n rest with
        | fault => simp [hr] at h
        | timeout => simp [hr] at h
        | ok args2 =>
          simp only [hr, Res.ok.injEq] at h
          subst h
          simp only [List.length_cons]
          rw [ih rest args2 hr]

/-- C15 as amended. For every line buffer the split step of the tokenizer yields, in order, the
maximal runs of characters other than space and newline of the text before the first NUL byte of
the buffer (the non-empty pieces of that text split at every space and newline), truncated to the
first 511; every token is non-empty and contains neither a space nor a newline nor a NUL; at most
511 tokens are produced, and so at most 511 slots of the argument array are filled, whatever the
pid string. -/
theorem strtokLoop_runs_between_delimiters (szLine : List Char) :
    strtokLoop szDelim 511 szLine =
      (((cString szLine).splitOnP (fun c => szDelim.contains c)).filter
        (fun l => !l.isEmpty)).take 511 ∧
    (∀ tok ∈ strtokLoop szDelim 511 szLine,
      tok ≠ [] ∧ ∀ c ∈ tok, c ≠ ' ' ∧ c ≠ '\n' ∧ c ≠ Char.ofNat 0) ∧
    (strtokLoop szDelim 511 szLine).length ≤ 511 ∧
    (∀ szPid args, tokenizeLoop szPid 511 szLine = Res.ok args → args.length ≤ 511) := by
  obtain ⟨h1, h2⟩ := strtokLoop_tokens szDelim 511 szLine
  refine ⟨strtokLoop_eq_runs szDelim szLine.length szLine 511 (le_refl _), ?_, h1, ?_⟩
  · intro tok htok
    obtain ⟨hne, hc⟩ := h2 tok htok
    refine ⟨hne, fun c hcm => ?_⟩
    obtain ⟨hd, hz⟩ := hc c hcm
    simp only [szDelim, List.mem_cons, List.mem_singleton, List.not_mem_nil, or_false,
      not_or] at hd
    exact ⟨hd.1, hd.2, hz⟩
  · intro szPid args hargs
    rw [tokenizeLoop_length szPid 511 szLine args hargs]
    exact h1

/-- Counterexample to C15 as stated. On the line `a<TAB>b` the split step yields the single token
`a<TAB>b`, which contains the whitespace character TAB. On the line `a<NUL>b c` it yields the
single token `a`, while the maximal runs of non-whitespace characters of that line are
`a<NUL>b` and `c`. -/
theorem strtokLoop_token_with_tab :
    strtokLoop szDelim 511 "a\tb\n".toList = ["a\tb".toList] ∧
    ¬ (∀ tok ∈ strtokLoop szDelim 511 "a\tb\n".toList, ∀ c ∈ tok, c.isWhitespace = false) ∧
    strtokLoop szDelim 511 ("a".toList ++ [Char.ofNat 0] ++ "b c\n".toList) = ["a".toList] ∧
    (("a".toList ++ [Char.ofNat 0] ++ "b c\n".toList).splitOnP Char.isWhitespace).filter
        (fun l => !l.isEmpty) =
      ["a".toList ++ [Char.ofNat 0] ++ "b".toList, "c".toList] := by
  refine ⟨by decide, by decide, by decide, by decide⟩

/-! ## Lines that only poll the background processes -/

theorem reapReport_events (prDone : stProcessList) (pidBc sBackground : Int) :
    ∀ e ∈ reapReport prDone pidBc sBackground, IsPollEvent e := by
  intro e he
  simp only [reapReport, List.mem_append, List.mem_singleton] at he
  rcases he with ((he | he) | he) | he
  · split at he
    · simp only [List.mem_singleton] at he
      subst he
      trivial
    · simp at he
  · split at he
    · simp only [List.mem_singleton] at he
      subst he
      trivial
    · simp at he
  · subst he
    exact Or.inl rfl
  · split at he
    · simp only [List.mem_singleton] at he
      subst he
      exact Or.inr (Or.inl rfl)
    · simp only [List.mem_singleton] at he
      subst he
      exact Or.inr (Or.inr rfl)

theorem pollLoop_events (os : Oracle) (fuel : Nat) :
    ∀ (pl : List stProcessList) (plI : Nat) (tr : Trace) (r : List stProcessList × Trace),
      pollLoop os fuel pl plI tr = Res.ok r →
      ∃ ev, r.2 = tr ++ ev ∧ ∀ e ∈ ev, IsPollEvent e := by
  induction fuel with
  | zero =>
    intro pl plI tr r h
    unfold pollLoop at h
    split at h
    · simp only [Res.ok.injEq] at h
      subst h
      exact ⟨[], by simp, by simp⟩
    · simp at h
  | succ fuel ih =>
    intro pl plI tr r h
    unfold pollLoop at h
    split at h
    · simp only [Res.ok.injEq] at h
      subst h
      exact ⟨[], by simp, by simp⟩
    · rename_i node _
      simp only at h
      split at h
      · split at h
        · cases h
        · rename_i j prDone pl2 _
          obtain ⟨ev, e1, e2⟩ := ih _ _ _ r h
          refine ⟨SysEvent.sysWaitpid node.pidSelf true (os.waitRet tr node.pidSelf true).1
            (os.waitRet tr node.pidSelf true).2 ::
            (reapReport prDone (os.waitRet tr node.pidSelf true).1
              (os.waitRet tr node.pidSelf true).2 ++ ev), ?_, ?_⟩
          · rw [e1]
            simp
          · intro e he
            rcases List.mem_cons.mp he with rfl | he
            · rfl
            · rcases List.mem_append.mp he with he | he
              · exact reapReport_events _ _ _ e he
              · exact e2 e he
      · obtain ⟨ev, e1, e2⟩ := ih _ _ _ r h
        refine ⟨SysEvent.sysWaitpid node.pidSelf true (os.waitRet tr node.pidSelf true).1
          (os.waitRet tr node.pidSelf true).2 :: ev, ?_, ?_⟩
        · rw [e1]
          simp
        · intro e he
          rcases List.mem_cons.mp he with rfl | he
          · rfl
          · exact e2 e he

theorem cleanupPoll_next (os : Oracle) (sh : Shell) (o : Outcome)
    (h : cleanupPoll os sh = Res.ok o) :
    ∃ sh2, o = Outcome.next sh2 ∧
      sh2.bLastFgPSigTerm = sh.bLastFgPSigTerm ∧ sh2.sLastFgPStat = sh.sLastFgPStat ∧
      pollJobs os sh.plBackgroundProcesses sh.hist
        = Res.ok (sh2.plBackgroundProcesses, sh2.hist) ∧
      ∃ ev, sh2.hist = sh.hist ++ ev ∧ ∀ e ∈ ev, IsPollEvent e := by
  unfold cleanupPoll at h
  cases hp : pollJobs os sh.plBackgroundProcesses sh.hist with
  | fault => simp [hp] at h
  | timeout => simp [hp] at h
  | ok r =>
    simp only [hp, Res.ok.injEq] at h
    subst h
    refine ⟨_, rfl, rfl, rfl, rfl, ?_⟩
    exact pollLoop_events os _ _ _ _ r hp

/-- C13. For every token sequence that is empty or whose first token is `<`, `>` or `&`
(whatever follows), the command section of `main` does exactly what the poll at `CLEANUP` does:
neither the compiler nor a builtin nor `fork` is reached. When it completes, the process goes on
to the next prompt with the last foreground status unchanged, the job table and the history are
those left by one poll pass, and every action added to the history is an action of the poll (a
non-blocking `waitpid`, a `close`, or a line of a DONE report), so no file is opened and no
parse-error message is printed. -/
theorem commandSection_stray_token_noop (os : Oracle) (dir : DirOracle) (szHome : Option CStr)
    (bForegroundOnly : Int) (arrszArgs : List CStr) (sh : Shell)
    (h : arrszArgs = [] ∨ arrszArgs.head? = some szLt ∨ arrszArgs.head? = some szGt ∨
      arrszArgs.head? = some szAmp) :
    commandSection os dir szHome bForegroundOnly arrszArgs sh = cleanupPoll os sh ∧
    ∀ o, commandSection os dir szHome bForegroundOnly arrszArgs sh = Res.ok o →
      ∃ sh2, o = Outcome.next sh2 ∧
        sh2.bLastFgPSigTerm = sh.bLastFgPSigTerm ∧ sh2.sLastFgPStat = sh.sLastFgPStat ∧
        pollJobs os sh.plBackgroundProcesses sh.hist
          = Res.ok (sh2.plBackgroundProcesses, sh2.hist) ∧
        ∃ ev, sh2.hist = sh.hist ++ ev ∧ ∀ e ∈ ev, IsPollEvent e := by
  have heq : commandSection os dir szHome bForegroundOnly arrszArgs sh = cleanupPoll os sh := by
    cases arrszArgs with
    | nil => rfl
    | cons first rest =>
      have hf : first = szLt ∨ first = szGt ∨ first = szAmp := by
        rcases h with h | h | h | h
        · cases h
        · exact Or.inl (by simpa using h)
        · exact Or.inr (Or.inl (by simpa using h))
        · exact Or.inr (Or.inr (by simpa using h))
      simp only [commandSection, if_pos hf]
  refine ⟨heq, fun o ho => ?_⟩
  rw [heq] at ho
  exact cleanupPoll_next os sh o ho

/-- Witness for C13: the tokens `< file &` with one terminated background job in the table. -/
theorem commandSection_stray_token_noop_witness :
    commandSection demoReapOracle demoDirOracle none 0
        ["<".toList, "file".toList, "&".toList]
        { bLastFgPSigTerm := 1, sLastFgPStat := 9, plBackgroundProcesses := [⟨7, 3, 4⟩],
          hist := [] } =
      cleanupPoll demoReapOracle
        { bLastFgPSigTerm := 1, sLastFgPStat := 9, plBackgroundProcesses := [⟨7, 3, 4⟩],
          hist := [] } ∧
    ∀ o, commandSection demoReapOracle demoDirOracle none 0
        ["<".toList, "file".toList, "&".toList]
        { bLastFgPSigTerm := 1, sLastFgPStat := 9, plBackgroundProcesses := [⟨7, 3, 4⟩],
          hist := [] } = Res.ok o →
      ∃ sh2, o = Outcome.next sh2 ∧
        sh2.bLastFgPSigTerm = 1 ∧ sh2.sLastFgPStat = 9 ∧
        pollJobs demoReapOracle [⟨7, 3, 4⟩] []
          = Res.ok (sh2.plBackgroundProcesses, sh2.hist) ∧
        ∃ ev, sh2.hist = [] ++ ev ∧ ∀ e ∈ ev, IsPollEvent e :=
  commandSection_stray_token_noop demoReapOracle demoDirOracle none 0
    ["<".toList, "file".toList, "&".toList]
    { bLastFgPSigTerm := 1, sLastFgPStat := 9, plBackgroundProcesses := [⟨7, 3, 4⟩],
      hist := [] }
    (Or.inr (Or.inl rfl))

theorem recordWait_quiet (acc : Option Int) (e : SysEvent) (h : isForegroundWait e = false) :
    recordWait acc e = acc := by
  cases e with
  | sysWaitpid pid nohang ret status =>
    cases nohang with
    | false => simp [isForegroundWait] at h
    | true => rfl
  | _ => rfl

theorem foldl_recordWait_quiet (ev : Trace) (acc : Option Int)
    (h : ∀ e ∈ ev, isForegroundWait e = false) : ev.foldl recordWait acc = acc := by
  induction ev generalizing acc with
  | nil => rfl
  | cons e ev ih =>
    rw [List.foldl_cons, recordWait_quiet acc e (h e (List.mem_cons_self _ _))]
    exact ih acc (fun x hx => h x (List.mem_cons_of_mem _ hx))

theorem lastForegroundWait_append_quiet (tr ev : Trace)
    (h : ∀ e ∈ ev, isForegroundWait e = false) :
    lastForegroundWait (tr ++ ev) = lastForegroundWait tr := by
  unfold lastForegroundWait
  rw [List.foldl_append]
  exact foldl_recordWait_quiet ev _ h

theorem lastForegroundWait_append_wait (tr ev : Trace) (pid ret status : Int)
    (h : ∀ e ∈ ev, isForegroundWait e = false) :
    lastForegroundWait (tr ++ SysEvent.sysWaitpid pid false ret status :: ev) = some status := by
  unfold lastForegroundWait
  rw [List.foldl_append, List.foldl_cons]
  exact foldl_recordWait_quiet ev _ h

theorem isPollEvent_quiet (e : SysEvent) (h : IsPollEvent e) : isForegroundWait e = false := by
  cases e with
  | sysWaitpid pid nohang ret status =>
    have hn : nohang = true := h
    subst hn
    rfl
  | _ => rfl

theorem lastForegroundWait_sysOpen (os : Oracle) (tr : Trace) (path : CStr) (flags : OpenFlags) :
    lastForegroundWait (sysOpen os tr path flags).2 = lastForegroundWait tr := by
  unfold sysOpen
  apply lastForegroundWait_append_quiet
  intro e he
  simp only [List.mem_singleton] at he
  subst he
  rfl

theorem compileStep_quiet (os : Oracle) (szHome : Option CStr) (bForegroundOnly : Int)
    (tok : CStr) (more : Bool) (st r : Compiler)
    (h : compileStep os szHome bForegroundOnly tok more st = Res.ok r) :
    lastForegroundWait r.hist = lastForegroundWait st.hist := by
  obtain ⟨comC, ph, err, hist⟩ := st
  unfold compileStep at h
  simp only at h
  repeat' split at h
  all_goals (cases h)
  all_goals (dsimp only)
  all_goals (simp only [lastForegroundWait_sysOpen])

theorem compileLoop_quiet (os : Oracle) (szHome : Option CStr) (bForegroundOnly : Int) :
    ∀ (args : List CStr) (idx : Nat) (st r : Compiler),
      compileLoop os szHome bForegroundOnly args idx st = Res.ok r →
      lastForegroundWait r.hist = lastForegroundWait st.hist := by
  intro args
  induction args with
  | nil =>
    intro idx st r h
    simp only [compileLoop, Res.ok.injEq] at h
    subst h
    rfl
  | cons tok rest ih =>
    intro idx st r h
    unfold compileLoop at h
    split at h
    · cases hs : compileStep os szHome bForegroundOnly tok (!rest.isEmpty) st with
      | fault => simp [hs] at h
      | timeout => simp [hs] at h
      | ok st2 =>
        simp only [hs] at h
        rw [ih _ _ _ h]
        exact compileStep_quiet os szHome bForegroundOnly tok _ st st2 hs
    · simp only [Res.ok.injEq] at h
      subst h
      rfl

theorem fnStCommandCreate_quiet (os : Oracle) (szHome : Option CStr) (tr : Trace)
    (arrszArgs : List CStr) (bForegroundOnly : Int) (c : Compiled)
    (h : fnStCommandCreate os szHome tr arrszArgs bForegroundOnly = Res.ok c) :
    lastForegroundWait c.hist = lastForegroundWait tr := by
  unfold fnStCommandCreate at h
  split at h
  · rename_i st hs
    simp only [Res.ok.injEq] at h
    subst h
    exact compileLoop_quiet os szHome bForegroundOnly _ _ _ st hs
  · cases h
  · cases h

theorem cdBuiltin_quiet (dir : DirOracle) (szHome : Option CStr) (rest : List CStr)
    (tr tr2 : Trace) (h : cdBuiltin dir szHome rest tr = Res.ok tr2) :
    lastForegroundWait tr2 = lastForegroundWait tr := by
  unfold cdBuiltin at h
  simp only at h
  repeat' split at h
  all_goals (cases h)
  all_goals (simp only [List.append_assoc])
  all_goals (apply lastForegroundWait_append_quiet)
  all_goals (simp [isForegroundWait])

theorem statusInv_of_eq (sh sh2 : Shell) (hb : sh2.bLastFgPSigTerm = sh.bLastFgPSigTerm)
    (hs : sh2.sLastFgPStat = sh.sLastFgPStat)
    (hh : lastForegroundWait sh2.hist = lastForegroundWait sh.hist) (h : StatusInv sh) :
    StatusInv sh2 := by
  unfold StatusInv at h ⊢
  rw [hb, hs, hh]
  exact h

theorem statusInv_of_wait (sh2 : Shell) (sCh : Int)
    (hh : lastForegroundWait sh2.hist = some sCh)
    (hb : sh2.bLastFgPSigTerm = if WIFSIGNALED sCh then 1 else 0)
    (hs : sh2.sLastFgPStat = if WIFSIGNALED sCh then WTERMSIG sCh else WEXITSTATUS sCh) :
    StatusInv sh2 := by
  unfold StatusInv
  rw [hh]
  exact ⟨hb, hs⟩

theorem statusInv_initialShell : StatusInv initialShell := ⟨rfl, rfl⟩

theorem lastForegroundWait_after_wait (tr : Trace) (pid ret sCh fdIn fdOut : Int) :
    lastForegroundWait
      (if fdOut ≠ STDOUT_FILENO then
        (if fdIn ≠ STDIN_FILENO then
          (if WIFSIGNALED sCh then
            tr ++ [SysEvent.sysWaitpid pid false ret sCh] ++
              [SysEvent.printf "TERMINATED with signal %d\n" [WTERMSIG sCh]]
           else tr ++ [SysEvent.sysWaitpid pid false ret sCh]) ++ [SysEvent.sysClose fdIn]
         else
          (if WIFSIGNALED sCh then
            tr ++ [SysEvent.sysWaitpid pid false ret sCh] ++
              [SysEvent.printf "TERMINATED with signal %d\n" [WTERMSIG sCh]]
           else tr ++ [SysEvent.sysWaitpid pid false ret sCh])) ++ [SysEvent.sysClose fdOut]
       else
        (if fdIn ≠ STDIN_FILENO then
          (if WIFSIGNALED sCh then
            tr ++ [SysEvent.sysWaitpid pid false ret sCh] ++
              [SysEvent.printf "TERMINATED with signal %d\n" [WTERMSIG sCh]]
           else tr ++ [SysEvent.sysWaitpid pid false ret sCh]) ++ [SysEvent.sysClose fdIn]
         else
          (if WIFSIGNALED sCh then
            tr ++ [SysEvent.sysWaitpid pid false ret sCh] ++
              [SysEvent.printf "TERMINATED with signal %d\n" [WTERMSIG sCh]]
           else tr ++ [SysEvent.sysWaitpid pid false ret sCh]))) = some sCh := by
  repeat' split
  all_goals (try simp only [List.append_assoc, List.singleton_append])
  all_goals (apply lastForegroundWait_append_wait)
  all_goals (simp [isForegroundWait])

theorem runCommand_status (os : Oracle) (szHome : Option CStr) (bForegroundOnly : Int)
    (arrszArgs : List CStr) (sh sh2 : Shell)
    (h : runCommand os szHome bForegroundOnly arrszArgs sh = Res.ok (Outcome.next sh2))
    (hinv : StatusInv sh) : StatusInv sh2 := by
  unfold runCommand at h
  cases hc : fnStCommandCreate os szHome sh.hist arrszArgs bForegroundOnly with
  | fault => simp [hc] at h
  | timeout => simp [hc] at h
  | ok c =>
    have hq := fnStCommandCreate_quiet os szHome sh.hist arrszArgs bForegroundOnly c hc
    simp only [hc] at h
    split at h
    · simp only [Res.ok.injEq, Outcome.next.injEq] at h
      subst h
      refine statusInv_of_eq sh _ rfl rfl ?_ hinv
      show lastForegroundWait (c.hist ++ parseErrorMessage c.idMyErrno) = _
      rw [← hq]
      apply lastForegroundWait_append_quiet
      intro e he
      unfold parseErrorMessage at he
      repeat' split at he
      all_goals (simp only [List.mem_singleton, List.not_mem_nil] at he)
      all_goals (subst he; rfl)
    · split at h
      · cases h
      · split at h
        · cases h
        · split at h
          · simp only [Res.ok.injEq, Outcome.next.injEq] at h
            subst h
            exact statusInv_of_wait _ _ (lastForegroundWait_after_wait _ _ _ _ _ _) rfl rfl
          · simp only [Res.ok.injEq, Outcome.next.injEq] at h
            subst h
            refine statusInv_of_eq sh _ rfl rfl ?_ hinv
            show lastForegroundWait (c.hist ++ [SysEvent.sysFork (os.forkRet c.hist)] ++
              [SysEvent.printf "BACKGROUND pid is [%d]\n" [os.forkRet c.hist]]) = _
            rw [← hq, List.append_assoc]
            apply lastForegroundWait_append_quiet
            simp [isForegroundWait]

theorem cleanupPoll_status (os : Oracle) (sh sh2 : Shell)
    (h : cleanupPoll os sh = Res.ok (Outcome.next sh2)) :
    sh2.bLastFgPSigTerm = sh.bLastFgPSigTerm ∧ sh2.sLastFgPStat = sh.sLastFgPStat ∧
    lastForegroundWait sh2.hist = lastForegroundWait sh.hist := by
  obtain ⟨sh3, e3, hb, hs, _, ev, hev, hq⟩ := cleanupPoll_next os sh _ h
  simp only [Outcome.next.injEq] at e3
  subst e3
  refine ⟨hb, hs, ?_⟩
  rw [hev]
  exact lastForegroundWait_append_quiet _ _ (fun e he => isPollEvent_quiet e (hq e he))

theorem cleanupPoll_statusInv (os : Oracle) (sh sh2 : Shell)
    (h : cleanupPoll os sh = Res.ok (Outcome.next sh2)) (hinv : StatusInv sh) :
    StatusInv sh2 := by
  obtain ⟨hb, hs, hh⟩ := cleanupPoll_status os sh sh2 h
  exact statusInv_of_eq sh sh2 hb hs hh hinv

theorem externalCommandLine_statusInv (os : Oracle) (szHome : Option CStr)
    (bForegroundOnly : Int) (arrszArgs : List CStr) (sh sh2 : Shell)
    (h : externalCommandLine os szHome bForegroundOnly arrszArgs sh = Res.ok (Outcome.next sh2))
    (hinv : StatusInv sh) : StatusInv sh2 := by
  unfold externalCommandLine at h
  split at h
  · rename_i sh1 hr
    exact cleanupPoll_statusInv os sh1 sh2 h
      (runCommand_status os szHome bForegroundOnly arrszArgs sh sh1 hr hinv)
  · rename_i hne
    exact absurd h (hne sh2)

theorem commandSection_statusInv (os : Oracle) (dir : DirOracle) (szHome : Option CStr)
    (bForegroundOnly : Int) (arrszArgs : List CStr) (sh sh2 : Shell)
    (h : commandSection os dir szHome bForegroundOnly arrszArgs sh = Res.ok (Outcome.next sh2))
    (hinv : StatusInv sh) : StatusInv sh2 := by
  unfold commandSection at h
  split at h
  · exact cleanupPoll_statusInv os sh sh2 h hinv
  · rename_i first rest
    split at h
    · exact cleanupPoll_statusInv os sh sh2 h hinv
    · split at h
      · cases h
      · split at h
        · split at h
          · cases h
          · cases h
          · rename_i tr hcd
            refine cleanupPoll_statusInv os _ sh2 h ?_
            exact statusInv_of_eq sh _ rfl rfl (cdBuiltin_quiet dir szHome rest sh.hist tr hcd)
              hinv
        · split at h
          · refine cleanupPoll_statusInv os _ sh2 h ?_
            refine statusInv_of_eq sh _ rfl rfl ?_ hinv
            apply lastForegroundWait_append_quiet
            intro e he
            unfold statusBuiltin at he
            split at he
            all_goals (simp only [List.mem_singleton] at he)
            all_goals (subst he; rfl)
          · exact externalCommandLine_statusInv os szHome bForegroundOnly _ sh sh2 h hinv

theorem statusInv_prompt (sh : Shell) (hinv : StatusInv sh) :
    StatusInv { sh with hist := sh.hist ++ [SysEvent.printf ": " []] } := by
  refine statusInv_of_eq sh _ rfl rfl ?_ hinv
  apply lastForegroundWait_append_quiet
  simp [isForegroundWait]

theorem mainIteration_statusInv (os : Oracle) (dir : DirOracle) (szHome : Option CStr)
    (szPid : CStr) (bForegroundOnly : Int) (szLine : CStr) (sh sh2 : Shell)
    (h : mainIteration os dir szHome szPid bForegroundOnly szLine sh
      = Res.ok (Outcome.next sh2))
    (hinv : StatusInv sh) : StatusInv sh2 := by
  unfold mainIteration at h
  split at h
  · exact cleanupPoll_statusInv os _ sh2 h (statusInv_prompt sh hinv)
  · split at h
    · cases h
    · cases h
    · exact commandSection_statusInv os dir szHome bForegroundOnly _ _ sh2 h
        (statusInv_prompt sh hinv)

theorem mainLoop_statusInv (os : Oracle) (dir : DirOracle) (szHome : Option CStr)
    (szPid : CStr) :
    ∀ (lines : List (Int × List Char)) (sh sh2 : Shell),
      mainLoop os dir szHome szPid lines sh = Res.ok (Outcome.next sh2) →
      StatusInv sh → StatusInv sh2 := by
  intro lines
  induction lines with
  | nil =>
    intro sh sh2 h hinv
    simp only [mainLoop, Res.ok.injEq, Outcome.next.injEq] at h
    subst h
    exact hinv
  | cons line rest ih =>
    intro sh sh2 h hinv
    obtain ⟨fo, szLine⟩ := line
    unfold mainLoop at h
    split at h
    · rename_i sh1 h1
      exact ih sh1 sh2 h (mainIteration_statusInv os dir szHome szPid fo szLine sh sh1 h1 hinv)
    · cases h
    · cases h
    · cases h
    · cases h

theorem mainLoop_append (os : Oracle) (dir : DirOracle) (szHome : Option CStr) (szPid : CStr)
    (more : List (Int × List Char)) :
    ∀ (lines : List (Int × List Char)) (sh sh1 : Shell),
      mainLoop os dir szHome szPid lines sh = Res.ok (Outcome.next sh1) →
      mainLoop os dir szHome szPid (lines ++ more) sh = mainLoop os dir szHome szPid more sh1 := by
  intro lines
  induction lines with
  | nil =>
    intro sh sh1 h
    simp only [mainLoop, Res.ok.injEq, Outcome.next.injEq] at h
    subst h
    rfl
  | cons line rest ih =>
    intro sh sh1 h
    obtain ⟨fo, szLine⟩ := line
    cases h2 : mainIteration os dir szHome szPid fo szLine sh with
    | fault => simp [mainLoop, h2] at h
    | timeout => simp [mainLoop, h2] at h
    | ok o =>
      cases o with
      | next sh2 =>
        simp only [List.cons_append, mainLoop, h2] at h ⊢
        exact ih sh2 sh1 h
      | exited status tr => simp [mainLoop, h2] at h
      | child comC tr => simp [mainLoop, h2] at h

theorem statusBuiltin_of_statusInv (sh : Shell) (hinv : StatusInv sh) :
    (lastForegroundWait sh.hist = none →
      statusBuiltin sh =
        [SysEvent.printf "LAST FOREGROUND PROCESS EXITED with status %d\n" [0]]) ∧
    (∀ sCh, lastForegroundWait sh.hist = some sCh →
      statusBuiltin sh =
        [if WIFSIGNALED sCh then
           SysEvent.printf "LAST FOREGROUND PROCESS TERMINATED by signal %d\n" [WTERMSIG sCh]
         else
           SysEvent.printf "LAST FOREGROUND PROCESS EXITED with status %d\n"
             [WEXITSTATUS sCh]]) := by
  unfold StatusInv at hinv
  constructor
  · intro hn
    rw [hn] at hinv
    simp [statusBuiltin, hinv.1, hinv.2]
  · intro sCh hsome
    rw [hsome] at hinv
    by_cases hsig : WIFSIGNALED sCh = true
    · simp [statusBuiltin, hinv.1, hinv.2, hsig]
    · simp [statusBuiltin, hinv.1, hinv.2, hsig]

/-! ## The `status` builtin after any sequence of lines -/

theorem runCommand_foreground (os : Oracle) (szHome : Option CStr) (fo : Int)
    (args : List CStr) (sh : Shell) (c : Compiled)
    (hc : fnStCommandCreate os szHome sh.hist args fo = Res.ok c)
    (herr : c.idMyErrno = 0) (hfg : c.comC.bForeground ≠ 0)
    (hpid1 : os.forkRet c.hist ≠ -1) (hpid0 : os.forkRet c.hist ≠ 0) :
    ∃ sh1, runCommand os szHome fo args sh = Res.ok (Outcome.next sh1) ∧
      sh1.bLastFgPSigTerm =
        (if WIFSIGNALED (os.waitRet (c.hist ++ [SysEvent.sysFork (os.forkRet c.hist)])
          (os.forkRet c.hist) false).2 then 1 else 0) ∧
      sh1.sLastFgPStat =
        (if WIFSIGNALED (os.waitRet (c.hist ++ [SysEvent.sysFork (os.forkRet c.hist)])
            (os.forkRet c.hist) false).2
          then WTERMSIG (os.waitRet (c.hist ++ [SysEvent.sysFork (os.forkRet c.hist)])
            (os.forkRet c.hist) false).2
          else WEXITSTATUS (os.waitRet (c.hist ++ [SysEvent.sysFork (os.forkRet c.hist)])
            (os.forkRet c.hist) false).2) ∧
      sh1.plBackgroundProcesses = sh.plBackgroundProcesses ∧
      lastForegroundWait sh1.hist =
        some (os.waitRet (c.hist ++ [SysEvent.sysFork (os.forkRet c.hist)])
          (os.forkRet c.hist) false).2 := by
  unfold runCommand
  rw [hc]
  simp only [herr, ne_eq, not_true_eq_false, if_false, hpid1, hpid0, hfg, not_false_eq_true,
    if_true]
  exact ⟨_, rfl, rfl, rfl, rfl, lastForegroundWait_after_wait _ _ _ _ _ _⟩

theorem wifexited_not_signaled (status : Int) (h : WIFEXITED status = true) :
    WIFSIGNALED status = false := by
  simp only [WIFEXITED, decide_eq_true_eq] at h
  simp [WIFSIGNALED, h]

/-- C12. Let the main loop, started in the state before its first iteration, handle any
sequence of input lines (each with the value the mode flag has when the line is handled) and
arrive at the next prompt, and let the `status` builtin run there. If no foreground child has
been waited for so far, it prints the exited-with-status message carrying 0. Otherwise let `sCh`
be the wait status stored by the last blocking `waitpid`, the one for the most recent foreground
child, however many background commands, polls, `cd` and `status` builtins, comment lines and
parse errors came after it: if that child exited with code `code` the builtin prints the
exited-with-status message carrying `code`, and if it was killed by signal `sig` the builtin
prints the terminated-by-signal message carrying `sig`. A line whose first token is `status`
appends exactly the output of the builtin and then polls; in every state the builtin prints one
message of one of the two kinds. Finally, when one more line is an external command that
compiles to a foreground command and is forked, the wait status the operating system stores for
that child is the one the history records last and the one the next `status` reports. -/
theorem statusBuiltin_reports_last_foreground (os : Oracle) (dir : DirOracle)
    (szHome : Option CStr) (szPid : CStr) (lines : List (Int × List Char)) (sh : Shell)
    (hrun : mainLoop os dir szHome szPid lines initialShell = Res.ok (Outcome.next sh)) :
    (lastForegroundWait sh.hist = none →
      statusBuiltin sh =
        [SysEvent.printf "LAST FOREGROUND PROCESS EXITED with status %d\n" [0]]) ∧
    (∀ sCh code, lastForegroundWait sh.hist = some sCh →
      WIFEXITED sCh = true → WEXITSTATUS sCh = code →
      statusBuiltin sh =
        [SysEvent.printf "LAST FOREGROUND PROCESS EXITED with status %d\n" [code]]) ∧
    (∀ sCh sig, lastForegroundWait sh.hist = some sCh →
      WIFSIGNALED sCh = true → WTERMSIG sCh = sig →
      statusBuiltin sh =
        [SysEvent.printf "LAST FOREGROUND PROCESS TERMINATED by signal %d\n" [sig]]) ∧
    (∀ (os2 : Oracle) (fo2 : Int) (rest2 : List CStr),
      commandSection os2 dir szHome fo2 ("status".toList :: rest2) sh =
        cleanupPoll os2 { sh with hist := sh.hist ++ statusBuiltin sh }) ∧
    (∀ s : Shell,
      statusBuiltin s =
        [SysEvent.printf "LAST FOREGROUND PROCESS EXITED with status %d\n" [s.sLastFgPStat]] ∨
      statusBuiltin s =
        [SysEvent.printf "LAST FOREGROUND PROCESS TERMINATED by signal %d\n"
          [s.sLastFgPStat]]) ∧
    (∀ (bForegroundOnly : Int) (szLine : List Char) (first : CStr) (rest : List CStr)
        (c : Compiled) (sh2 : Shell),
      ¬ (szLine.head? = some '#' ∨ szLine.head? = some '\n') →
      tokenizeLoop szPid 511 szLine = Res.ok (first :: rest) →
      (first ≠ szLt ∧ first ≠ szGt ∧ first ≠ szAmp ∧ first ≠ "exit".toList ∧
        first ≠ "cd".toList ∧ first ≠ "status".toList) →
      fnStCommandCreate os szHome (sh.hist ++ [SysEvent.printf ": " []]) (first :: rest)
        bForegroundOnly = Res.ok c →
      c.idMyErrno = 0 → c.comC.bForeground ≠ 0 →
      os.forkRet c.hist ≠ -1 → os.forkRet c.hist ≠ 0 →
      mainLoop os dir szHome szPid (lines ++ [(bForegroundOnly, szLine)]) initialShell
        = Res.ok (Outcome.next sh2) →
      lastForegroundWait sh2.hist =
        some (os.waitRet (c.hist ++ [SysEvent.sysFork (os.forkRet c.hist)])
          (os.forkRet c.hist) false).2 ∧
      statusBuiltin sh2 =
        [if WIFSIGNALED (os.waitRet (c.hist ++ [SysEvent.sysFork (os.forkRet c.hist)])
            (os.forkRet c.hist) false).2
         then SysEvent.printf "LAST FOREGROUND PROCESS TERMINATED by signal %d\n"
           [WTERMSIG (os.waitRet (c.hist ++ [SysEvent.sysFork (os.forkRet c.hist)])
             (os.forkRet c.hist) false).2]
         else SysEvent.printf "LAST FOREGROUND PROCESS EXITED with status %d\n"
           [WEXITSTATUS (os.waitRet (c.hist ++ [SysEvent.sysFork (os.forkRet c.hist)])
             (os.forkRet c.hist) false).2]]) := by
  have hinv : StatusInv sh :=
    mainLoop_statusInv os dir szHome szPid lines initialShell sh hrun statusInv_initialShell
  obtain ⟨hnone, hsome⟩ := statusBuiltin_of_statusInv sh hinv
  refine ⟨hnone, ?_, ?_, ?_, ?_, ?_⟩
  · intro sCh code hl hex hcode
    rw [hsome sCh hl, wifexited_not_signaled sCh hex, ← hcode]
    simp
  · intro sCh sig hl hsig hterm
    rw [hsome sCh hl, hsig, ← hterm]
    simp
  · intro os2 fo2 rest2
    have g1 : ¬ ("status".toList = szLt ∨ "status".toList = szGt ∨ "status".toList = szAmp) := by
      decide
    have g2 : ¬ "status".toList = "exit".toList := by decide
    have g3 : ¬ "status".toList = "cd".toList := by decide
    simp only [commandSection, if_neg g1, if_neg g2, if_neg g3, if_true]
  · intro s
    unfold statusBuiltin
    split
    · exact Or.inr rfl
    · exact Or.inl rfl
  · intro fo szLine first rest c sh2 hhead htok hfirst hc herr hfg hpid1 hpid0 hrun2
    obtain ⟨f1, f2, f3, f4, f5, f6⟩ := hfirst
    have hinv2 : StatusInv sh2 :=
      mainLoop_statusInv os dir szHome szPid _ initialShell sh2 hrun2 statusInv_initialShell
    rw [mainLoop_append os dir szHome szPid [(fo, szLine)] lines initialShell sh hrun] at hrun2
    obtain ⟨sh1, hrunc, _, _, _, htr⟩ := runCommand_foreground os szHome fo (first :: rest)
      { sh with hist := sh.hist ++ [SysEvent.printf ": " []] } c hc herr hfg hpid1 hpid0
    have hnot : ¬ (first = szLt ∨ first = szGt ∨ first = szAmp) := by
      rintro (h | h | h)
      · exact f1 h
      · exact f2 h
      · exact f3 h
    have hline : cleanupPoll os sh1 = Res.ok (Outcome.next sh2) := by
      simp only [mainLoop, mainIteration, if_neg hhead, htok, commandSection, if_neg hnot,
        if_neg f4, if_neg f5, if_neg f6, externalCommandLine, hrunc] at hrun2
      cases hp : cleanupPoll os sh1 with
      | fault => simp [hp] at hrun2
      | timeout => simp [hp] at hrun2
      | ok o =>
        cases o with
        | next sh3 =>
          simp only [hp, Res.ok.injEq, Outcome.next.injEq] at hrun2
          rw [hrun2]
        | exited status tr2 => simp [hp] at hrun2
        | child comC tr2 => simp [hp] at hrun2
    obtain ⟨_, _, hh⟩ := cleanupPoll_status os sh1 sh2 hline
    have hl : lastForegroundWait sh2.hist = some _ := hh.trans htr
    exact ⟨hl, (statusBuiltin_of_statusInv sh2 hinv2).2 _ hl⟩

/-- Witness for C12: on an oracle whose foreground children exit with code 2 and whose
background children are found killed by signal 9, the lines `ls`, `sleep 5 &` and `cd` are
handled in turn; the background command, its DONE report and the `cd` builtin leave the status
alone, and `status` still reports exit status 2. -/
theorem statusBuiltin_reports_last_foreground_witness :
    mainLoop demoMixedOracle demoDirOracle none "42".toList
        [(0, "ls\n".toList), (0, "sleep 5 &\n".toList), (1, "cd\n".toList)] initialShell =
      Res.ok (Outcome.next
        { bLastFgPSigTerm := 0, sLastFgPStat := 2, plBackgroundProcesses := [],
          hist := [SysEvent.printf ": " [], SysEvent.sysFork 101,
            SysEvent.sysWaitpid 101 false 101 512,
            SysEvent.printf ": " [],
            SysEvent.sysOpen "/dev/null".toList OpenFlags.O_RDONLY 7,
            SysEvent.sysOpen "/dev/null".toList OpenFlags.O_WRONLY 8,
            SysEvent.sysFork 106, SysEvent.printf "BACKGROUND pid is [%d]\n" [106],
            SysEvent.sysWaitpid 106 true 106 9, SysEvent.sysClose 7, SysEvent.sysClose 8,
            SysEvent.printf "DONE with background process with pid [%d]: " [106],
            SysEvent.printf "Terminated by signal %d\n" [9],
            SysEvent.printf ": " [], SysEvent.sysGetcwd (some ['/']),
            SysEvent.sysChdir none 0, SysEvent.sysSetenv "PWD" none,
            SysEvent.printfStr "WAS %s\n" [some ['/']]] }) ∧
    statusBuiltin
        { bLastFgPSigTerm := 0, sLastFgPStat := 2, plBackgroundProcesses := [],
          hist := [SysEvent.printf ": " [], SysEvent.sysFork 101,
            SysEvent.sysWaitpid 101 false 101 512,
            SysEvent.printf ": " [],
            SysEvent.sysOpen "/dev/null".toList OpenFlags.O_RDONLY 7,
            SysEvent.sysOpen "/dev/null".toList OpenFlags.O_WRONLY 8,
            SysEvent.sysFork 106, SysEvent.printf "BACKGROUND pid is [%d]\n" [106],
            SysEvent.sysWaitpid 106 true 106 9, SysEvent.sysClose 7, SysEvent.sysClose 8,
            SysEvent.printf "DONE with background process with pid [%d]: " [106],
            SysEvent.printf "Terminated by signal %d\n" [9],
            SysEvent.printf ": " [], SysEvent.sysGetcwd (some ['/']),
            SysEvent.sysChdir none 0, SysEvent.sysSetenv "PWD" none,
            SysEvent.printfStr "WAS %s\n" [some ['/']]] } =
      [SysEvent.printf "LAST FOREGROUND PROCESS EXITED with status %d\n" [2]] :=
  ⟨by decide,
   (statusBuiltin_reports_last_foreground demoMixedOracle demoDirOracle none "42".toList
      [(0, "ls\n".toList), (0, "sleep 5 &\n".toList), (1, "cd\n".toList)] _
      (by decide)).2.1 512 2 (by decide) (by decide) (by decide)⟩

end Smallsh
